import Mathlib

/-!
# Verification of the job agent: log shipping, job lifecycle, admission

Shallow embedding of three source files

* `pkg/eventlogger/httpbackend.go` : namespace `Agent.Eventlogger`
* `pkg/jobs/job.go`                : namespace `Agent.Jobs`
* `pkg/server/server.go`           : namespace `Agent.Control`

Go pointers to mutable structs become explicit state passing.  Everything
outside the program (the HTTP sink, the executor) is a parameter: a
transition function on an arbitrary world state `σ`.  What the program does
to the outside is recorded in a trace.  A method call is one atomic step:
goroutines racing on one job are modelled by the order in which their calls
take place.  Go `int` values are unbounded `Int`; the only arithmetic is
`startFrom + len(buffer)`, which cannot leave the 64-bit range before 2^63
events have been written.
-/

namespace Agent

/-! ## pkg/eventlogger/httpbackend.go -/

namespace Eventlogger

/-- What `send` learns from the HTTP library for one flush: `requestError` is
an `err != nil` from `http.NewRequest` (the url does not parse; `send` returns
before `client.Do` and no request is performed), `failure` is an `err != nil`
from `client.Do`, `status code` is a response with that status code. -/
inductive Outcome where
  | requestError
  | failure
  | status (code : Int)
deriving DecidableEq, Repr

/-- The errors the backend returns. -/
inductive Error where
  | invalidBufferSize
  | newRequest
  | transport
  | response (code : Int)
deriving DecidableEq, Repr

/-- One flush request built by `send`: a POST to `url?start_from=startFrom`
with the two headers and the marshalled events of the buffer as body lines. -/
structure Request where
  method : String
  url : String
  startFrom : Int
  contentType : String
  authorization : String
  events : List String
deriving DecidableEq, Repr

/-- Request target as formatted by `fmt.Sprintf("%s?start_from=%d", ...)`. -/
def Request.target (r : Request) : String :=
  r.url ++ "?start_from=" ++ toString r.startFrom

/-- Request body: `strings.Join(events, "\n")`. -/
def Request.payload (r : Request) : String :=
  "\n".intercalate r.events

/-- A flush request together with what came back for it. -/
structure Exchange where
  request : Request
  outcome : Outcome
deriving DecidableEq, Repr

/-- The struct `HttpBackend`.  The field `client` is the HTTP library with the
remote sink behind it, as `send` uses them: for the request `send` wants to
make in a world state it says whether `http.NewRequest` accepts it and, if
so, what `client.Do` returns, and it moves the world on. -/
structure HttpBackend (σ α : Type) where
  client : σ → Request → Outcome × σ
  url : String
  token : String
  buffer : List α
  bufferSize : Int
  startFrom : Int

/-- A backend, the world it talks to, and every exchange performed so far:
the requests handed to `client.Do`, with what came back. -/
structure State (σ α : Type) where
  backend : HttpBackend σ α
  world : σ
  sent : List Exchange

/-- `NewHttpBackend(url, token, bufferSize)`; the sink behind the fresh
`http.Client` is the parameter `client`. -/
def NewHttpBackend {σ α : Type} (client : σ → Request → Outcome × σ)
    (url token : String) (bufferSize : Int) : Except Error (HttpBackend σ α) :=
  if bufferSize ≤ 0 then
    Except.error Error.invalidBufferSize
  else
    Except.ok
      { client := client
        url := url
        token := token
        bufferSize := bufferSize
        buffer := []
        startFrom := 0 }

/-- `HttpBackend.Open`: does nothing. -/
def HttpBackend.Open {σ α : Type} (s : State σ α) : State σ α × Option Error :=
  (s, none)

/-- The error `send` returns for an outcome: none exactly for status 200. -/
def Outcome.err : Outcome → Option Error
  | Outcome.requestError => some Error.newRequest
  | Outcome.failure => some Error.transport
  | Outcome.status code => if code ≠ 200 then some (Error.response code) else none

/-- `HttpBackend.send`: marshal every buffered event (`marshal` is
`json.Marshal` followed by `string`), build the request tagged with the
current `startFrom`; if `http.NewRequest` fails, return its error at once,
otherwise hand the request to the client and classify the answer. -/
def HttpBackend.send {σ α : Type} (marshal : α → String) (s : State σ α) :
    State σ α × Option Error :=
  let l := s.backend
  let events := l.buffer.map marshal
  let request : Request :=
    { method := "POST"
      url := l.url
      startFrom := l.startFrom
      contentType := "text/plain"
      authorization := "Bearer " ++ l.token
      events := events }
  let answer := l.client s.world request
  match answer.1 with
  | Outcome.requestError => (s, some Error.newRequest)
  | outcome =>
    ({ s with world := answer.2, sent := s.sent ++ [⟨request, outcome⟩] }, outcome.err)

/-- `HttpBackend.Write`. -/
def HttpBackend.Write {σ α : Type} (marshal : α → String) (event : α) (s : State σ α) :
    State σ α × Option Error :=
  let s1 : State σ α := { s with backend := { s.backend with buffer := s.backend.buffer ++ [event] } }
  if (s1.backend.buffer.length : Int) < s1.backend.bufferSize then
    (s1, none)
  else
    let r := HttpBackend.send marshal s1
    match r.2 with
    | some err => (r.1, some err)
    | none =>
      let s2 := r.1
      let s3 : State σ α :=
        { s2 with backend :=
            { s2.backend with startFrom := s2.backend.startFrom + s2.backend.buffer.length } }
      let s4 : State σ α := { s3 with backend := { s3.backend with buffer := [] } }
      (s4, none)

/-- `HttpBackend.Close`. -/
def HttpBackend.Close {σ α : Type} (marshal : α → String) (s : State σ α) :
    State σ α × Option Error :=
  if s.backend.buffer.length > 0 then
    let r := HttpBackend.send marshal s
    match r.2 with
    | some err => (r.1, some err)
    | none =>
      let s2 := r.1
      let s3 : State σ α := { s2 with backend := { s2.backend with buffer := [] } }
      let s4 : State σ α :=
        { s3 with backend := { s3.backend with startFrom := (s3.backend.buffer.length : Int) } }
      (s4, none)
  else
    (s, none)

/-- The two operations a caller performs on an open backend. -/
inductive Op (α : Type) where
  | write (event : α)
  | close
deriving DecidableEq, Repr

/-- Perform one operation. -/
def HttpBackend.step {σ α : Type} (marshal : α → String) (s : State σ α) :
    Op α → State σ α × Option Error
  | Op.write event => HttpBackend.Write marshal event s
  | Op.close => HttpBackend.Close marshal s

/-- Perform a sequence of operations, each whatever the previous returned. -/
def HttpBackend.run {σ α : Type} (marshal : α → String) (s : State σ α)
    (ops : List (Op α)) : State σ α :=
  ops.foldl (fun st op => (HttpBackend.step marshal st op).1) s

/-- The events a sequence of operations writes, in order. -/
def written {α : Type} : List (Op α) → List α
  | [] => []
  | Op.write event :: ops => event :: written ops
  | Op.close :: ops => written ops

/-- An exchange the sink acknowledged with success (status 200). -/
def Exchange.acked (x : Exchange) : Bool :=
  x.outcome.err.isNone

/-- Number of events contained in the acknowledged flushes of a log. -/
def ackedCount (sent : List Exchange) : Int :=
  ((sent.filter Exchange.acked).map (fun x => (x.request.events.length : Int))).sum

/-- The events contained in the acknowledged flushes of a log, in the order
in which they were delivered. -/
def ackedEvents (sent : List Exchange) : List String :=
  ((sent.filter Exchange.acked).map (fun x => x.request.events)).flatten

/-- The flush request a backend with the given fields sends for `events`. -/
def flushRequest (url token : String) (startFrom : Int) (events : List String) : Request :=
  { method := "POST"
    url := url
    startFrom := startFrom
    contentType := "text/plain"
    authorization := "Bearer " ++ token
    events := events }

/-! ### Concrete sinks and backends used to instantiate the theorems -/

/-- A sink that acknowledges every request with status 200. -/
def sinkOk : Unit → Request → Outcome × Unit :=
  fun w _ => (Outcome.status 200, w)

/-- A scripted sink: the world is the list of outcomes still to be given, one
per request; once the script is used up every request is acknowledged. -/
def sinkScript : List Outcome → Request → Outcome × List Outcome
  | [], _ => (Outcome.status 200, [])
  | o :: os, _ => (o, os)

/-- The HTTP library in front of an acknowledging sink: `http.NewRequest`
rejects the url `://bad` (it has no protocol scheme), every other request is
acknowledged with status 200. -/
def sinkParsing : Unit → Request → Outcome × Unit :=
  fun w r => if r.url = "://bad" then (Outcome.requestError, w) else (Outcome.status 200, w)

/-- The backend `NewHttpBackend` builds for the url `://bad` with threshold 2. -/
def backendBadUrl : HttpBackend Unit String :=
  { client := sinkParsing, url := "://bad", token := "secret",
    buffer := [], bufferSize := 2, startFrom := 0 }

/-- The backend `NewHttpBackend` builds for the sink `sinkOk`. -/
def backendOk (bufferSize : Int) : HttpBackend Unit String :=
  { client := sinkOk, url := "https://logs.example", token := "secret",
    buffer := [], bufferSize := bufferSize, startFrom := 0 }

/-- A backend in mid-life talking to a scripted sink: two events buffered,
four already delivered. -/
def backendScripted : HttpBackend (List Outcome) String :=
  { client := sinkScript, url := "https://logs.example", token := "secret",
    buffer := ["e4", "e5"], bufferSize := 3, startFrom := 4 }

/-- The backend `NewHttpBackend` builds for the scripted sink with threshold 2. -/
def backendScriptedFresh : HttpBackend (List Outcome) String :=
  { client := sinkScript, url := "https://logs.example", token := "secret",
    buffer := [], bufferSize := 2, startFrom := 0 }

/-- The scripted backend facing a sink that will answer 500, then fail at
transport level, then acknowledge. -/
def stateScripted : State (List Outcome) String :=
  { backend := backendScripted
    world := [Outcome.status 500, Outcome.failure, Outcome.status 200]
    sent := [] }

end Eventlogger

/-! ## pkg/jobs/job.go -/

namespace Jobs

/-- Constant `JOB_PASSED`. -/
def JOB_PASSED : String := "passed"

/-- Constant `JOB_FAILED`. -/
def JOB_FAILED : String := "failed"

/-- Modelled from the spec: `eventlogger.LoggerMethodPull` is declared outside
the source files at hand; it names the "pull-by-file" delivery method, the
default `NewJob` installs, as opposed to "push-over-http". -/
def LoggerMethodPull : String := "pull"

/-- Modelled from the spec: `executors.ExecutorTypeShell`, the default executor
kind `NewJob` installs; declared outside the source files at hand. -/
def ExecutorTypeShell : String := "shell"

/-- The type `api.Command`: the two fields `job.go` reads. -/
structure Command where
  Directive : String
  Alias : String
deriving DecidableEq, Repr

/-- The type `api.EnvVar`; only handed on to the executor. -/
structure EnvVar where
  Name : String
  Value : String
deriving DecidableEq, Repr

/-- The type `api.File`; only handed on to the executor. -/
structure File where
  Path : String
  Content : String
  Mode : String
deriving DecidableEq, Repr

/-- The field `Callbacks` of `api.JobRequest`. -/
structure Callbacks where
  Finished : String
  TeardownFinished : String
deriving DecidableEq, Repr

/-- The field `Logger` of `api.JobRequest`. -/
structure LoggerConfig where
  Method : String
  URL : String
  Token : String
deriving DecidableEq, Repr

/-- The type `api.JobRequest`: the fields `job.go` reads. -/
structure JobRequest where
  ID : String
  Executor : String
  EnvVars : List EnvVar
  Files : List File
  Commands : List Command
  EpilogueAlwaysCommands : List Command
  EpilogueOnPassCommands : List Command
  EpilogueOnFailCommands : List Command
  Callbacks : Callbacks
  Logger : LoggerConfig
deriving DecidableEq, Repr

/-- Modelled from the spec: `eventlogger.Logger`, declared outside the source
files at hand: "wraps a backend; stateless beyond delegation".  What the job
does with it (`LogJobStarted`, `LogJobFinished`, `Close`) is recorded as
effects; the value `Close` returns is only logged by the job. -/
structure Logger where
  Method : String
deriving DecidableEq, Repr

/-- The interface `executors.Executor` as the job uses it: each operation
acts on the world and returns an exit code.  `Stop` returns `none` when it
panics. -/
structure Executor (σ : Type) where
  Prepare : σ → Int × σ
  Start : σ → Int × σ
  ExportEnvVars : List EnvVar → σ → Int × σ
  InjectFiles : List File → σ → Int × σ
  RunCommand : String → Bool → String → σ → Int × σ
  Stop : σ → Option Int × σ

/-- Modelled from the spec: the type `Lock` of the teardown gate, declared
outside the source files at hand: "a single-acquisition lock that admits
exactly one caller", with "try-acquire semantics (non-blocking probe that
returns whether acquisition succeeded)". -/
structure Lock where
  locked : Bool
deriving DecidableEq, Repr

/-- Modelled from the spec: `Lock.TryLock`, which succeeds exactly when the
lock has not been taken and leaves it taken. -/
def Lock.TryLock (l : Lock) : Bool × Lock :=
  (!l.locked, { locked := true })

/-- The struct `Job`. -/
structure Job (σ : Type) where
  Request : JobRequest
  Logger : Logger
  Executor : Executor σ
  JobLogArchived : Bool
  Stopped : Bool
  Finished : Bool
  TeardownLock : Lock

/-- What a job does to the outside, in the order it does it.  Messages written
with logrus go to the agent's own process log; they are not job log events
and are left out. -/
inductive Effect where
  | logJobStarted
  | logJobFinished (result : String)
  | loggerClose
  | prepare
  | start
  | exportEnvVars (vars : List EnvVar)
  | injectFiles (files : List File)
  | runCommand (directive : String) (silent : Bool) (aliasName : String)
  | stop
  | callback (url : String) (payload : String)
  | sleep (milliseconds : Nat)
  | finishedCallback
deriving DecidableEq, Repr

/-- Whether an effect is an outbound callback POST. -/
def Effect.isCallback : Effect → Bool
  | Effect.callback _ _ => true
  | _ => false

/-- A job in execution: the job, the world its executor acts on, and the
effects performed so far. -/
structure Proc (σ : Type) where
  job : Job σ
  world : σ
  trace : List Effect

/-- Record an effect. -/
def Proc.emit {σ : Type} (p : Proc σ) (e : Effect) : Proc σ :=
  { p with trace := p.trace ++ [e] }

/-- Call an executor operation: record it, let it act on the world. -/
def Proc.call {σ : Type} (p : Proc σ) (e : Effect) (f : σ → Int × σ) : Int × Proc σ :=
  ((f p.world).1, { p with world := (f p.world).2, trace := p.trace ++ [e] })

/-- `fmt.Sprintf` of the finished callback payload. -/
def finishedPayload (result : String) : String :=
  "\x7b\"result\": \"" ++ result ++ "\"\x7d"

/-- `Job.SendCallback`: one POST (retried by pester) whose error, if any, the
callers drop. -/
def Job.SendCallback {σ : Type} (p : Proc σ) (url payload : String) : Proc σ :=
  p.emit (Effect.callback url payload)

/-- `Job.SendFinishedCallback`. -/
def Job.SendFinishedCallback {σ : Type} (p : Proc σ) (result : String) : Proc σ :=
  Job.SendCallback p p.job.Request.Callbacks.Finished (finishedPayload result)

/-- `Job.SendTeardownFinishedCallback`. -/
def Job.SendTeardownFinishedCallback {σ : Type} (p : Proc σ) : Proc σ :=
  Job.SendCallback p p.job.Request.Callbacks.TeardownFinished "\x7b\x7d"

/-- `Job.PrepareEnvironment`. -/
def Job.PrepareEnvironment {σ : Type} (p : Proc σ) : Int × Proc σ :=
  let r1 := p.call Effect.prepare p.job.Executor.Prepare
  if r1.1 ≠ 0 then
    (r1.1, r1.2)
  else
    let r2 := r1.2.call Effect.start r1.2.job.Executor.Start
    if r2.1 ≠ 0 then
      (r2.1, r2.2)
    else
      (0, r2.2)

/-- The loop of `Job.RunCommandsUntilFirstFailure`, with `lastExitCode` as
accumulator. -/
def Job.commandLoop {σ : Type} : List Command → Int → Proc σ → Int × Proc σ
  | [], lastExitCode, p => (lastExitCode, p)
  | c :: cs, _, p =>
    if p.job.Stopped then
      (1, p)
    else
      let r := p.call (Effect.runCommand c.Directive false c.Alias)
        (p.job.Executor.RunCommand c.Directive false c.Alias)
      if r.1 ≠ 0 then
        (r.1, r.2)
      else
        Job.commandLoop cs r.1 r.2

/-- `Job.RunCommandsUntilFirstFailure`. -/
def Job.RunCommandsUntilFirstFailure {σ : Type} (p : Proc σ) (commands : List Command) :
    Int × Proc σ :=
  Job.commandLoop commands 1 p

/-- `Job.RunRegularCommands`. -/
def Job.RunRegularCommands {σ : Type} (p : Proc σ) : String × Proc σ :=
  let r1 := p.call (Effect.exportEnvVars p.job.Request.EnvVars)
    (p.job.Executor.ExportEnvVars p.job.Request.EnvVars)
  if r1.1 ≠ 0 then
    (JOB_FAILED, r1.2)
  else
    let r2 := r1.2.call (Effect.injectFiles r1.2.job.Request.Files)
      (r1.2.job.Executor.InjectFiles r1.2.job.Request.Files)
    if r2.1 ≠ 0 then
      (JOB_FAILED, r2.2)
    else
      let r3 := Job.RunCommandsUntilFirstFailure r2.2 r2.2.job.Request.Commands
      if r3.1 = 0 then
        (JOB_PASSED, r3.2)
      else
        (JOB_FAILED, r3.2)

/-- The archival wait of `Job.Teardown`: poll `JobLogArchived`, sleeping one
second between polls.  `fuel` bounds the number of sleeps; the Boolean says
whether the loop was left.  Nothing in the calling goroutine sets the flag,
so the loop is left only if the flag is already set. -/
def Job.waitForArchivator {σ : Type} : Nat → Proc σ → Proc σ × Bool
  | 0, p => (p, p.job.JobLogArchived)
  | fuel + 1, p =>
    if p.job.JobLogArchived then
      (p, true)
    else
      Job.waitForArchivator fuel (p.emit (Effect.sleep 1000))

/-- `Job.Teardown`.  The Boolean says whether the call returned (`false`: the
fuel ran out in the archival wait). -/
def Job.Teardown {σ : Type} (fuel : Nat) (p : Proc σ) (result : String) : Proc σ × Bool :=
  let gate := p.job.TeardownLock.TryLock
  let p0 : Proc σ := { p with job := { p.job with TeardownLock := gate.2 } }
  if !gate.1 then
    (p0, true)
  else
    let p1 := Job.SendFinishedCallback p0 result
    let p2 := p1.emit (Effect.logJobFinished result)
    let waited :=
      if p2.job.Request.Logger.Method = LoggerMethodPull then
        Job.waitForArchivator fuel p2
      else
        (p2, true)
    if !waited.2 then
      (waited.1, false)
    else
      let p3 := waited.1.emit Effect.loggerClose
      let p4 := Job.SendTeardownFinishedCallback p3
      (p4, true)

/-- Modelled from the spec: `PreventPanicPropagation`, declared outside the
source files at hand: "exceptions during this are caught and swallowed so
the stop sequence cannot itself crash the controller".  The function runs;
its result, or its panic, is dropped. -/
def PreventPanicPropagation {σ β : Type} (f : Proc σ → Option β × Proc σ) (p : Proc σ) :
    Proc σ :=
  (f p).2

/-- `Job.Stop`. -/
def Job.Stop {σ : Type} (fuel : Nat) (p : Proc σ) : Proc σ × Bool :=
  let p1 : Proc σ := { p with job := { p.job with Stopped := true } }
  let p2 := PreventPanicPropagation
    (fun q => ((q.job.Executor.Stop q.world).1,
      { q with world := (q.job.Executor.Stop q.world).2, trace := q.trace ++ [Effect.stop] })) p1
  Job.Teardown fuel p2 "stopped"

/-- `Job.Run`; `finishedCallback` is the optional function argument, acting on
the world.  The Boolean says whether the call returned. -/
def Job.Run {σ : Type} (fuel : Nat) (p : Proc σ) (finishedCallback : Option (σ → σ)) :
    Proc σ × Bool :=
  let p0 := p.emit Effect.logJobStarted
  let prepared := Job.PrepareEnvironment p0
  let executorRunning := decide (prepared.1 = 0)
  let ran : String × Proc σ :=
    if executorRunning then
      let regular := Job.RunRegularCommands prepared.2
      let result := regular.1
      let e1 := Job.RunCommandsUntilFirstFailure regular.2
        [{ Directive := "export SEMAPHORE_JOB_RESULT=" ++ result, Alias := "" }]
      let e2 := Job.RunCommandsUntilFirstFailure e1.2 e1.2.job.Request.EpilogueAlwaysCommands
      let e3 :=
        if result = JOB_PASSED then
          Job.RunCommandsUntilFirstFailure e2.2 e2.2.job.Request.EpilogueOnPassCommands
        else
          Job.RunCommandsUntilFirstFailure e2.2 e2.2.job.Request.EpilogueOnFailCommands
      (result, e3.2)
    else
      (JOB_FAILED, prepared.2)
  let torn := Job.Teardown fuel ran.2 ran.1
  if !torn.2 then
    (torn.1, false)
  else
    let p5 : Proc σ := { torn.1 with job := { torn.1.job with Finished := true } }
    match finishedCallback with
    | some f => ({ p5 with world := f p5.world, trace := p5.trace ++ [Effect.finishedCallback] }, true)
    | none => (p5, true)

/-- `NewJob`; `CreateLogger` and `CreateExecutor` are the two factories of the
packages `eventlogger` and `executors`. -/
def NewJob {σ : Type} (CreateLogger : JobRequest → Except String Logger)
    (CreateExecutor : JobRequest → Logger → Except String (Executor σ))
    (request : JobRequest) : Except String (Job σ) :=
  let request1 : JobRequest :=
    if request.Executor = "" then { request with Executor := ExecutorTypeShell } else request
  let request2 : JobRequest :=
    if request1.Logger.Method = "" then
      { request1 with Logger := { request1.Logger with Method := LoggerMethodPull } }
    else request1
  match CreateLogger request2 with
  | Except.error err => Except.error err
  | Except.ok logger =>
    match CreateExecutor request2 logger with
    | Except.error err => Except.error err
    | Except.ok executor =>
      Except.ok
        { Request := request2
          Executor := executor
          JobLogArchived := false
          Stopped := false
          Finished := false
          Logger := logger
          TeardownLock := { locked := false } }

/-- A call entering the teardown arbitration: `Job.Stop`, or the call of
`Job.Teardown` at the natural end of `Job.Run`. -/
inductive Call where
  | stop
  | teardown (result : String)
deriving DecidableEq, Repr

/-- Perform one call. -/
def Job.perform {σ : Type} (fuel : Nat) (p : Proc σ) : Call → Proc σ × Bool
  | Call.stop => Job.Stop fuel p
  | Call.teardown result => Job.Teardown fuel p result

/-- The outcome of a series of calls on one job: the job and world reached,
the effects of each call in call order, and whether every call returned. -/
structure Calls (σ : Type) where
  job : Job σ
  world : σ
  effects : List (List Effect)
  returned : Bool

/-- Perform calls one after the other on the same job, in the order in which
they reach the teardown gate. -/
def Job.performAll {σ : Type} (fuel : Nat) (job : Job σ) (world : σ) : List Call → Calls σ
  | [] => { job := job, world := world, effects := [], returned := true }
  | c :: cs =>
    let r := Job.perform fuel { job := job, world := world, trace := [] } c
    let rest := Job.performAll fuel r.1.job r.1.world cs
    { rest with effects := r.1.trace :: rest.effects, returned := r.2 && rest.returned }

/-- The result a call reports if it wins the teardown gate. -/
def Call.result : Call → String
  | Call.stop => "stopped"
  | Call.teardown result => result

/-- What a call does before it reaches the teardown gate: `Stop` asks the
executor to stop, the end of `Run` does nothing. -/
def Call.beforeGate : Call → List Effect
  | Call.stop => [Effect.stop]
  | Call.teardown _ => []

/-- The effect of handing a command to `Executor.RunCommand`. -/
def Command.effect (c : Command) : Effect :=
  Effect.runCommand c.Directive false c.Alias

/-- The world after running the commands one after the other through
`Executor.RunCommand`, provided every one of them exits 0; `none` as soon as
one exits nonzero. -/
def Executor.passAll {σ : Type} (ex : Executor σ) : List Command → σ → Option σ
  | [], w => some w
  | c :: cs, w =>
    if (ex.RunCommand c.Directive false c.Alias w).1 = 0 then
      Executor.passAll ex cs (ex.RunCommand c.Directive false c.Alias w).2
    else
      none

/-- The commands that get run when a sequence is run through
`Executor.RunCommand` until its first failure: every command up to and
including the first one that exits nonzero (each run in the world its
predecessors left), the whole sequence if none does. -/
def Executor.untilFirstFailure {σ : Type} (ex : Executor σ) : List Command → σ → List Command
  | [], _ => []
  | c :: cs, w =>
    if (ex.RunCommand c.Directive false c.Alias w).1 ≠ 0 then
      [c]
    else
      c :: Executor.untilFirstFailure ex cs (ex.RunCommand c.Directive false c.Alias w).2

/-- The world a sequence leaves when it is run through `Executor.RunCommand`
until its first failure. -/
def Executor.worldAfter {σ : Type} (ex : Executor σ) : List Command → σ → σ
  | [], w => w
  | c :: cs, w =>
    if (ex.RunCommand c.Directive false c.Alias w).1 ≠ 0 then
      (ex.RunCommand c.Directive false c.Alias w).2
    else
      Executor.worldAfter ex cs (ex.RunCommand c.Directive false c.Alias w).2

/-- The part of `Job.Run` that precedes the call of `Teardown`: it yields the
result `Run` passes to `Teardown` and the state in which it does so. -/
def Job.beforeTeardown {σ : Type} (p : Proc σ) : String × Proc σ :=
  let p0 := p.emit Effect.logJobStarted
  let prepared := Job.PrepareEnvironment p0
  let executorRunning := decide (prepared.1 = 0)
  if executorRunning then
    let regular := Job.RunRegularCommands prepared.2
    let result := regular.1
    let e1 := Job.RunCommandsUntilFirstFailure regular.2
      [{ Directive := "export SEMAPHORE_JOB_RESULT=" ++ result, Alias := "" }]
    let e2 := Job.RunCommandsUntilFirstFailure e1.2 e1.2.job.Request.EpilogueAlwaysCommands
    let e3 :=
      if result = JOB_PASSED then
        Job.RunCommandsUntilFirstFailure e2.2 e2.2.job.Request.EpilogueOnPassCommands
      else
        Job.RunCommandsUntilFirstFailure e2.2 e2.2.job.Request.EpilogueOnFailCommands
    (result, e3.2)
  else
    (JOB_FAILED, prepared.2)

/-- The exit codes `Executor.RunCommand` returns when the commands are run one
after the other until the first nonzero one. -/
def Executor.exitCodes {σ : Type} (ex : Executor σ) : List Command → σ → List Int
  | [], _ => []
  | c :: cs, w =>
    if (ex.RunCommand c.Directive false c.Alias w).1 ≠ 0 then
      [(ex.RunCommand c.Directive false c.Alias w).1]
    else
      (ex.RunCommand c.Directive false c.Alias w).1
        :: Executor.exitCodes ex cs (ex.RunCommand c.Directive false c.Alias w).2

/-- The exit codes the executor returns to `Job.Run` for prepare, start,
env-var export, file injection and the regular commands, in the order in
which `Run` asks for them (it stops asking at the first nonzero one, and asks
for no command when the job is stopped). -/
def Job.observedCodes {σ : Type} (job : Job σ) (w : σ) : List Int :=
  let r1 := job.Executor.Prepare w
  if r1.1 ≠ 0 then
    [r1.1]
  else
    let r2 := job.Executor.Start r1.2
    if r2.1 ≠ 0 then
      [r1.1, r2.1]
    else
      let r3 := job.Executor.ExportEnvVars job.Request.EnvVars r2.2
      if r3.1 ≠ 0 then
        [r1.1, r2.1, r3.1]
      else
        let r4 := job.Executor.InjectFiles job.Request.Files r3.2
        if r4.1 ≠ 0 then
          [r1.1, r2.1, r3.1, r4.1]
        else
          [r1.1, r2.1, r3.1, r4.1] ++
            (if job.Stopped then []
             else Executor.exitCodes job.Executor job.Request.Commands r4.2)

/-! ### The archival wait while the archivator is served

`Job.Teardown` polls `JobLogArchived`; the handler `Server.JobLogs`, on the
goroutine serving the archivator, sets it (server.go, line 126).  The
definitions below are `waitForArchivator`, `Teardown` and `Stop` again, with
the moment at which that happens as a parameter. -/

/-- An executor whose world counts the operations performed; every operation
exits 0 except the command `false`, which exits 1; `Stop` panics. -/
def countingExecutor : Executor Nat :=
  { Prepare := fun w => (0, w + 1)
    Start := fun w => (0, w + 1)
    ExportEnvVars := fun _ w => (0, w + 1)
    InjectFiles := fun _ w => (0, w + 1)
    RunCommand := fun directive _ _ w => (if directive = "false" then 1 else 0, w + 1)
    Stop := fun w => (none, w + 1) }

/-- The counting executor with a `Start` that exits 125. -/
def notStartingExecutor : Executor Nat :=
  { countingExecutor with Start := fun w => (125, w + 1) }

/-- The counting executor with a `RunCommand` that moreover fails every
command issued after six operations have been performed. -/
def tiringExecutor : Executor Nat :=
  { countingExecutor with
    RunCommand := fun directive _ _ w => (if directive = "false" ∨ 6 ≤ w then 1 else 0, w + 1) }

/-- A job request with three regular commands, the second of which fails. -/
def requestFailing : JobRequest :=
  { ID := "job-1"
    Executor := "shell"
    EnvVars := [{ Name := "A", Value := "1" }]
    Files := []
    Commands := [⟨"echo ok", "first"⟩, ⟨"false", "second"⟩, ⟨"echo never", "third"⟩]
    EpilogueAlwaysCommands := [⟨"echo always", "always"⟩]
    EpilogueOnPassCommands := [⟨"echo pass", "on pass"⟩]
    EpilogueOnFailCommands := [⟨"echo fail", "on fail"⟩]
    Callbacks := { Finished := "https://hub.example/finished",
                   TeardownFinished := "https://hub.example/teardown" }
    Logger := { Method := "push", URL := "https://logs.example", Token := "secret" } }

/-- The scenario of the spec: one command, one epilogue-on-pass command. -/
def requestPassing : JobRequest :=
  { requestFailing with
    Commands := [⟨"echo ok", "first"⟩]
    EpilogueAlwaysCommands := []
    EpilogueOnPassCommands := [⟨"echo done", "done"⟩]
    EpilogueOnFailCommands := [] }

/-- A fresh job for a request, as `NewJob` builds it around the counting
executor. -/
def freshJob (request : JobRequest) : Job Nat :=
  { Request := request
    Logger := { Method := request.Logger.Method }
    Executor := countingExecutor
    JobLogArchived := false
    Stopped := false
    Finished := false
    TeardownLock := { locked := false } }

/-- A fresh job whose log is pulled by the archivator, which has not come yet. -/
def pullJob : Job Nat :=
  freshJob { requestPassing with
    Logger := { requestPassing.Logger with Method := LoggerMethodPull } }

end Jobs

/-! ## pkg/server/server.go -/

namespace Control

open Jobs

/-- The `http.ResponseWriter` a handler is given: the headers set, the status
line written (none yet on entry), and the body written so far. -/
structure ResponseWriter where
  header : List (String × String)
  status : Option Nat
  body : String
deriving DecidableEq, Repr

/-- The writer a handler receives. -/
def ResponseWriter.fresh : ResponseWriter :=
  { header := [], status := none, body := "" }

/-- `w.WriteHeader(code)`: the first status line written stands. -/
def ResponseWriter.WriteHeader (w : ResponseWriter) (code : Nat) : ResponseWriter :=
  if w.status.isSome then w else { w with status := some code }

/-- `fmt.Fprintf(w, text)`: writing a body before any status line sends 200. -/
def ResponseWriter.Write (w : ResponseWriter) (text : String) : ResponseWriter :=
  let w1 := if w.status.isSome then w else { w with status := some 200 }
  { w1 with body := w1.body ++ text }

/-- `http.Error(w, message, code)`. -/
def ResponseWriter.Error (w : ResponseWriter) (message : String) (code : Nat) : ResponseWriter :=
  let w1 : ResponseWriter :=
    { w with header := w.header ++ [("Content-Type", "text/plain; charset=utf-8"),
        ("X-Content-Type-Options", "nosniff")] }
  (w1.WriteHeader code).Write (message ++ "\n")

/-- The status code the client receives: 200 if the handler wrote none. -/
def ResponseWriter.statusCode (w : ResponseWriter) : Nat :=
  w.status.getD 200

/-- The parts of an `http.Request` the handlers read: what reading the body
gives, the headers and the query parameters. -/
structure HttpRequest where
  body : Except String String
  header : String → String
  query : String → String

/-- The struct `Server`; `Logfile` and `router` play no part in the handlers
and are left out. -/
structure Server (σ : Type) where
  Host : String
  Port : Int
  State : String
  Version : String
  TLSKeyPath : String
  TLSCertPath : String
  JwtSecret : List Nat
  ActiveJob : Option (Job σ)

/-- A goroutine started by a handler with a `go` statement. -/
inductive Spawn where
  | jobRun
  | jobStop
deriving DecidableEq, Repr

/-- A nil `ActiveJob` being dereferenced: in the handler itself (net/http
recovers the panic and the server lives on), or in the goroutine the handler
started (the panic is not recovered and ends the process). -/
inductive Fault where
  | nilActiveJobInHandler
  | nilActiveJobInGoroutine
deriving DecidableEq, Repr

/-- What a handler leaves behind: the server, the response, the goroutines
it started, and the fault it ran into, if any. -/
structure Handled (σ : Type) where
  server : Server σ
  w : ResponseWriter
  spawned : List Spawn
  fault : Option Fault := none

/-- `NewServer`, without the routing table. -/
def NewServer {σ : Type} (host : String) (port : Int) (version : String)
    (jwtSecret : List Nat) : Server σ :=
  { Host := host
    Port := port
    State := "waiting for job"
    TLSKeyPath := "server.key"
    TLSCertPath := "server.crt"
    JwtSecret := jwtSecret
    Version := version
    ActiveJob := none }

/-- `Server.Run`, the submit-job handler.  `NewRequestFromJSON` is the parser
of package `api`; `CreateLogger` and `CreateExecutor` are the factories
`jobs.NewJob` calls. -/
def Server.Run {σ : Type} (NewRequestFromJSON : String → Except String JobRequest)
    (CreateLogger : JobRequest → Except String Logger)
    (CreateExecutor : JobRequest → Logger → Except String (Executor σ))
    (s : Server σ) (w : ResponseWriter) (r : HttpRequest) : Handled σ :=
  if s.State ≠ "waiting for job" then
    let w1 := w.WriteHeader 422
    let w2 := w1.Write "\x7b\"message\": \"a job is already running\"\x7d"
    { server := s, w := w2, spawned := [] }
  else
    let s1 : Server σ := { s with State := "received-job" }
    match r.body with
    | Except.error err => { server := s1, w := w.Error err 500, spawned := [] }
    | Except.ok body =>
      match NewRequestFromJSON body with
      | Except.error err =>
        { server := s1, w := w.Write ("\x7b\"message\": \"" ++ err ++ "\"\x7d"), spawned := [] }
      | Except.ok request =>
        match NewJob CreateLogger CreateExecutor request with
        | Except.error err =>
          { server := s1, w := w.Write ("\x7b\"message\": \"" ++ err ++ "\"\x7d"), spawned := [] }
        | Except.ok job =>
          let s2 : Server σ := { s1 with ActiveJob := some job }
          let s3 : Server σ := { s2 with State := "job-started" }
          { server := s3, w := w, spawned := [Spawn.jobRun] }

/-- `Server.Status`.  `Marshal` is `json.Marshal` on the map built by the
handler (given as its key-value pairs), `Sprintf` is what `fmt.Fprintf` makes
of a format string without arguments. -/
def Server.Status {σ : Type} (Marshal : List (String × String) → String)
    (Sprintf : String → String) (s : Server σ) (w : ResponseWriter) (_r : HttpRequest) :
    Handled σ :=
  let w1 := w.WriteHeader 400
  let m := [("state", s.State), ("version", s.Version)]
  let jsonString := Marshal m
  { server := s, w := w1.Write (Sprintf jsonString), spawned := [] }

/-- The two files the log handlers read, as they are when a request arrives:
the lines of `/tmp/job_log.json` and the content of `/tmp/agent_log`; `none`
when `os.Open` fails. -/
structure Files where
  jobLog : Option (List String)
  agentLog : Option String
deriving DecidableEq, Repr

/-- The scanner loop of `Server.JobLogs`: print every line whose number is at
least `startFromLine`. -/
def writeLogLines : List String → Int → Int → ResponseWriter → ResponseWriter
  | [], _, _, w => w
  | line :: rest, logLine, startFromLine, w =>
    let w1 := if logLine ≥ startFromLine then w.Write (line ++ "\n") else w
    writeLogLines rest (logLine + 1) startFromLine w1

/-- `Server.JobLogs`.  `Atoi` is `strconv.Atoi` (`none` when it returns an
error). -/
def Server.JobLogs {σ : Type} (Atoi : String → Option Int) (files : Files)
    (s : Server σ) (w : ResponseWriter) (r : HttpRequest) : Handled σ :=
  let w0 : ResponseWriter := { w with header := w.header ++ [("Content-Type", "text/plain")] }
  let startFromLine : Int :=
    match Atoi (r.query "start_from") with
    | some n => n
    | none => 0
  match files.jobLog with
  | none => { server := s, w := w0.WriteHeader 404, spawned := [] }
  | some lines =>
    let w1 := writeLogLines lines 0 startFromLine w0
    if r.header "X-Client-Name" = "archivator" then
      match s.ActiveJob with
      | none =>
        { server := s, w := w1, spawned := [], fault := some Fault.nilActiveJobInHandler }
      | some job =>
        { server := { s with ActiveJob := some { job with JobLogArchived := true } }
          w := w1
          spawned := [] }
    else
      { server := s, w := w1, spawned := [] }

/-- `Server.AgentLogs`. -/
def Server.AgentLogs {σ : Type} (files : Files) (s : Server σ) (w : ResponseWriter)
    (_r : HttpRequest) : Handled σ :=
  let w0 : ResponseWriter := { w with header := w.header ++ [("Content-Type", "text/plain")] }
  match files.agentLog with
  | none => { server := s, w := w0.WriteHeader 404, spawned := [] }
  | some content => { server := s, w := w0.Write content, spawned := [] }

/-- `Server.Stop`: start `ActiveJob.Stop` in a goroutine and answer 200.  With
a nil `ActiveJob` the goroutine still starts (the method has a pointer
receiver) and panics at its first field access. -/
def Server.Stop {σ : Type} (s : Server σ) (w : ResponseWriter) (_r : HttpRequest) :
    Handled σ :=
  match s.ActiveJob with
  | none =>
    { server := s, w := w.WriteHeader 200, spawned := [Spawn.jobStop]
      fault := some Fault.nilActiveJobInGoroutine }
  | some _ => { server := s, w := w.WriteHeader 200, spawned := [Spawn.jobStop] }

/-- Everything the handlers take from outside the package. -/
structure Deps (σ : Type) where
  NewRequestFromJSON : String → Except String JobRequest
  CreateLogger : JobRequest → Except String Logger
  CreateExecutor : JobRequest → Logger → Except String (Executor σ)
  Atoi : String → Option Int
  Marshal : List (String × String) → String
  Sprintf : String → String

/-- A request as the router dispatches it: the handler it goes to, the
request, and for the log handlers the files as they are at that time. -/
inductive Incoming where
  | run (r : HttpRequest)
  | stop (r : HttpRequest)
  | status (r : HttpRequest)
  | jobLogs (r : HttpRequest) (files : Files)
  | agentLogs (r : HttpRequest) (files : Files)

/-- Dispatch one request to its handler, with a fresh response writer. -/
def Server.handle {σ : Type} (d : Deps σ) (s : Server σ) : Incoming → Handled σ
  | Incoming.run r =>
    Server.Run d.NewRequestFromJSON d.CreateLogger d.CreateExecutor s ResponseWriter.fresh r
  | Incoming.stop r => Server.Stop s ResponseWriter.fresh r
  | Incoming.status r => Server.Status d.Marshal d.Sprintf s ResponseWriter.fresh r
  | Incoming.jobLogs r files => Server.JobLogs d.Atoi files s ResponseWriter.fresh r
  | Incoming.agentLogs r files => Server.AgentLogs files s ResponseWriter.fresh r

/-- Handle a sequence of requests one after the other and return the server
reached.  A panic in a goroutine ends the process: the requests after it are
not handled.  The goroutines started for a job change fields of that job
only, never `State` nor which job `ActiveJob` points to. -/
def Server.serve {σ : Type} (d : Deps σ) (s : Server σ) : List Incoming → Server σ
  | [] => s
  | c :: cs =>
    if (Server.handle d s c).fault = some Fault.nilActiveJobInGoroutine then
      (Server.handle d s c).server
    else
      Server.serve d (Server.handle d s c).server cs

/-! ### Concrete servers used to instantiate the theorems -/

/-- A parser that accepts exactly the body `ok`. -/
def parseExample (body : String) : Except String JobRequest :=
  if body = "ok" then Except.ok requestPassing else Except.error "invalid job request"

/-- A server that has started a job. -/
def busyServer : Server Nat :=
  { (NewServer "0.0.0.0" 8000 "v1.0.0" [1, 2, 3] : Server Nat) with
    State := "job-started"
    ActiveJob := some (freshJob requestFailing) }

/-- A submit-job request with a well-formed body. -/
def submitRequest : HttpRequest :=
  { body := Except.ok "ok", header := fun _ => "", query := fun _ => "" }

/-- A submit-job request whose body is not a job specification. -/
def malformedRequest : HttpRequest :=
  { body := Except.ok "not a job", header := fun _ => "", query := fun _ => "" }

/-- A request without body, as sent to the stop and status endpoints. -/
def plainRequest : HttpRequest :=
  { body := Except.ok "", header := fun _ => "", query := fun _ => "" }

/-- A job-logs request of the archivator. -/
def archivatorRequest : HttpRequest :=
  { body := Except.ok ""
    header := fun name => if name = "X-Client-Name" then "archivator" else ""
    query := fun _ => "" }

/-- A server just built by `NewServer`: no job has been submitted. -/
def idleServer : Server Nat :=
  NewServer "0.0.0.0" 8000 "v1.0.0" [1, 2, 3]

/-- The dependencies of the handlers for the examples: the example parser,
a logger and the counting executor for every request, a version of
`json.Marshal` for maps of plain strings. -/
def depsExample : Deps Nat :=
  { NewRequestFromJSON := parseExample
    CreateLogger := fun q => Except.ok { Method := q.Logger.Method }
    CreateExecutor := fun _ _ => Except.ok countingExecutor
    Atoi := String.toInt?
    Marshal := fun m =>
      "\x7b" ++ ",".intercalate (m.map (fun kv => "\"" ++ kv.1 ++ "\":\"" ++ kv.2 ++ "\"")) ++ "\x7d"
    Sprintf := id }

/-- The job log is present with two lines; the agent log is present. -/
def filesExample : Files :=
  { jobLog := some ["line 0", "line 1"], agentLog := some "agent started" }

end Control

end Agent

/-! ## Theorems: log shipping backend -/

namespace Agent.Eventlogger

variable {σ α : Type}

lemma run_append (marshal : α → String) (s : State σ α) (ops : List (Op α)) (op : Op α) :
    HttpBackend.run marshal s (ops ++ [op])
      = (HttpBackend.step marshal (HttpBackend.run marshal s ops) op).1 := by
  simp [HttpBackend.run, List.foldl_append]

lemma written_append (ops : List (Op α)) (op : Op α) :
    written (ops ++ [op]) = written ops ++ written [op] := by
  induction ops with
  | nil => simp [written]
  | cons o os ih => cases o <;> simp [written, ih]

/-- Batching invariant of repeated `Write` against a sink that always answers
200: after `k * bs + r` events (`r < bs`) exactly `k` flushes happened, the
`i`-th carrying events `i*bs .. (i+1)*bs-1` at offset `i*bs`, and the last `r`
events are buffered. -/
lemma write_batches (marshal : α → String) (client : σ → Request → Outcome × σ)
    (url token : String) (bs : ℕ) (hbs : 0 < bs)
    (hok : ∀ w r, (client w r).1 = Outcome.status 200) (w0 : σ) (es : List α) :
    ∃ k r w, es.length = k * bs + r ∧ r < bs ∧
      HttpBackend.run marshal ⟨⟨client, url, token, [], (bs : Int), 0⟩, w0, []⟩ (es.map Op.write)
        = ⟨⟨client, url, token, es.drop (k * bs), (bs : Int), ((k * bs : ℕ) : Int)⟩, w,
            (List.range k).map (fun i =>
              ⟨flushRequest url token ((i * bs : ℕ) : Int) (((es.drop (i * bs)).take bs).map marshal),
                Outcome.status 200⟩)⟩ := by
  induction es using List.reverseRecOn with
  | nil => exact ⟨0, 0, w0, by simp, hbs, by simp [HttpBackend.run]⟩
  | append_singleton es e ih =>
    obtain ⟨k, r, w, hlen, hr, hrun⟩ := ih
    rw [List.map_append, List.map_singleton, run_append, hrun]
    have hdroplen : (es.drop (k * bs)).length = r := by simp [hlen]
    have hdrop : (es ++ [e]).drop (k * bs) = es.drop (k * bs) ++ [e] := by
      rw [List.drop_append_of_le_length (by omega)]
    have hchunks : ∀ i, i < k →
        ((es ++ [e]).drop (i * bs)).take bs = (es.drop (i * bs)).take bs := by
      intro i hi
      have h1 : (i + 1) * bs ≤ k * bs := Nat.mul_le_mul_right bs hi
      have h2 : (i + 1) * bs = i * bs + bs := by ring
      rw [List.drop_append_of_le_length (by omega), List.take_append_of_le_length]
      simp only [List.length_drop]
      omega
    by_cases hfull : r + 1 < bs
    · refine ⟨k, r + 1, w, by simp [hlen]; omega, hfull, ?_⟩
      have hlt : ((es.drop (k * bs) ++ [e]).length : Int) < (bs : Int) := by
        simp only [List.length_append, List.length_singleton, hdroplen]
        exact_mod_cast hfull
      simp only [HttpBackend.step, HttpBackend.Write, hlt, if_true, hdrop]
      congr 1
      apply List.map_congr_left
      intro i hi
      rw [hchunks i (List.mem_range.mp hi)]
    · have hr1 : r + 1 = bs := by omega
      have hnlt : ¬ ((es.drop (k * bs) ++ [e]).length : Int) < (bs : Int) := by
        simp only [List.length_append, List.length_singleton, hdroplen]
        exact_mod_cast hfull
      have hk1 : (k + 1) * bs = k * bs + bs := by ring
      refine ⟨k + 1, 0, (client w (flushRequest url token ((k * bs : ℕ) : Int)
        ((es.drop (k * bs) ++ [e]).map marshal))).2, by simp [hlen]; omega, hbs, ?_⟩
      have hdrop0 : (es ++ [e]).drop ((k + 1) * bs) = [] := by
        apply List.drop_eq_nil_of_le
        simp [hlen]; omega
      have htake : ((es ++ [e]).drop (k * bs)).take bs = es.drop (k * bs) ++ [e] := by
        rw [hdrop]
        apply List.take_of_length_le
        simp [hdroplen]; omega
      simp only [HttpBackend.step, HttpBackend.Write, hnlt, if_false, HttpBackend.send,
        flushRequest, hok, Outcome.err, hdrop0]
      simp only [List.range_succ, List.map_append, List.map_singleton, htake, flushRequest]
      simp only [ne_eq, not_true_eq_false, if_false, List.length_append, List.length_singleton,
        hdroplen]
      congr 1
      · congr 1
        rw [hr1, hk1]
        push_cast
        ring
      · congr 1
        apply List.map_congr_left
        intro i hi
        rw [hchunks i (List.mem_range.mp hi)]

/-- The request `send` builds in a state and the answer the sink gives; no
request is performed when `http.NewRequest` fails. -/
lemma send_eq (marshal : α → String) (s : State σ α) :
    HttpBackend.send marshal s
      = if (s.backend.client s.world (flushRequest s.backend.url s.backend.token
              s.backend.startFrom (s.backend.buffer.map marshal))).1 = Outcome.requestError
        then (s, some Error.newRequest)
        else
        ({ s with
            world := (s.backend.client s.world (flushRequest s.backend.url s.backend.token
              s.backend.startFrom (s.backend.buffer.map marshal))).2
            sent := s.sent ++ [⟨flushRequest s.backend.url s.backend.token
              s.backend.startFrom (s.backend.buffer.map marshal),
              (s.backend.client s.world (flushRequest s.backend.url s.backend.token
                s.backend.startFrom (s.backend.buffer.map marshal))).1⟩] },
         (s.backend.client s.world (flushRequest s.backend.url s.backend.token
              s.backend.startFrom (s.backend.buffer.map marshal))).1.err) := by
  unfold HttpBackend.send flushRequest
  dsimp only
  split
  · rename_i h
    rw [if_pos h]
  · rename_i h
    rw [if_neg (fun hh => h hh)]

/-- `Write` below the threshold only appends. -/
lemma Write_below (marshal : α → String) (e : α) (s : State σ α)
    (h : ((s.backend.buffer ++ [e]).length : Int) < s.backend.bufferSize) :
    HttpBackend.Write marshal e s
      = ({ s with backend := { s.backend with buffer := s.backend.buffer ++ [e] } }, none) := by
  simp only [HttpBackend.Write, h, if_true]

/-- `Write` at or above the threshold performs exactly one exchange, unless
`http.NewRequest` fails. -/
lemma Write_sent_of_reached (marshal : α → String) (e : α) (s : State σ α)
    (h : ¬ ((s.backend.buffer ++ [e]).length : Int) < s.backend.bufferSize)
    (hbuilt : (s.backend.client s.world (flushRequest s.backend.url s.backend.token
      s.backend.startFrom ((s.backend.buffer ++ [e]).map marshal))).1 ≠ Outcome.requestError) :
    (HttpBackend.Write marshal e s).1.sent
      = s.sent ++ [⟨flushRequest s.backend.url s.backend.token s.backend.startFrom
          ((s.backend.buffer ++ [e]).map marshal),
          (s.backend.client s.world (flushRequest s.backend.url s.backend.token
            s.backend.startFrom ((s.backend.buffer ++ [e]).map marshal))).1⟩] := by
  simp only [HttpBackend.Write, h, if_false, send_eq, hbuilt]
  split <;> rfl

/-- Every operation is one of three things: no request (the written event is
appended; either no flush was due, or `http.NewRequest` failed and its error
is returned), a failed flush (likewise, and an error is returned), or a flush
acknowledged with 200 (the buffer is cleared).  The flush request always
carries the whole buffer, the event just written included, at the current
offset. -/
lemma step_spec (marshal : α → String) (s : State σ α) (op : Op α) :
    (∃ req : Request, req = flushRequest s.backend.url s.backend.token s.backend.startFrom
        ((s.backend.buffer ++ written [op]).map marshal) ∧
      ((∃ e, (HttpBackend.step marshal s op) =
          ({ s with backend := { s.backend with buffer := s.backend.buffer ++ written [op] } }, e))
      ∨ (∃ o w, o.err ≠ none ∧ HttpBackend.step marshal s op =
          ({ backend := { s.backend with buffer := s.backend.buffer ++ written [op] }
             world := w
             sent := s.sent ++ [⟨req, o⟩] }, o.err))
      ∨ (∃ o w n, o.err = none ∧ HttpBackend.step marshal s op =
          ({ backend := { s.backend with buffer := [], startFrom := n }
             world := w
             sent := s.sent ++ [⟨req, o⟩] }, none)))) := by
  refine ⟨_, rfl, ?_⟩
  cases op with
  | write e =>
    by_cases h : ((s.backend.buffer ++ [e]).length : Int) < s.backend.bufferSize
    · left
      exact ⟨none, by simp only [HttpBackend.step, Write_below marshal e s h, written]⟩
    · by_cases hb : (s.backend.client s.world (flushRequest s.backend.url s.backend.token
          s.backend.startFrom ((s.backend.buffer ++ [e]).map marshal))).1 = Outcome.requestError
      · left
        exact ⟨some Error.newRequest,
          by simp only [HttpBackend.step, HttpBackend.Write, h, if_false, send_eq, written, hb,
            if_true]⟩
      · right
        simp only [HttpBackend.step, HttpBackend.Write, h, if_false, send_eq, written, hb]
        generalize s.backend.client s.world (flushRequest s.backend.url s.backend.token
            s.backend.startFrom ((s.backend.buffer ++ [e]).map marshal)) = ans
        cases ho : ans.1.err with
        | some err =>
          left
          exact ⟨ans.1, ans.2, by rw [ho]; simp, by rw [ho]⟩
        | none =>
          right
          exact ⟨ans.1, ans.2, _, ho, rfl⟩
  | close =>
    by_cases h : s.backend.buffer.length > 0
    · by_cases hb : (s.backend.client s.world (flushRequest s.backend.url s.backend.token
          s.backend.startFrom (s.backend.buffer.map marshal))).1 = Outcome.requestError
      · left
        exact ⟨some Error.newRequest,
          by simp only [HttpBackend.step, HttpBackend.Close, h, if_true, send_eq, written,
            List.append_nil, hb]⟩
      · right
        simp only [HttpBackend.step, HttpBackend.Close, h, if_true, send_eq, written,
          List.append_nil, hb, if_false]
        generalize s.backend.client s.world (flushRequest s.backend.url s.backend.token
            s.backend.startFrom (s.backend.buffer.map marshal)) = ans
        cases ho : ans.1.err with
        | some err =>
          left
          exact ⟨ans.1, ans.2, by rw [ho]; simp, by rw [ho]⟩
        | none =>
          right
          exact ⟨ans.1, ans.2, _, ho, rfl⟩
    · left
      exact ⟨none,
        by simp only [HttpBackend.step, HttpBackend.Close, h, if_false, written, List.append_nil]⟩

/-- The log of exchanges only grows. -/
lemma run_sent_extends (marshal : α → String) (s : State σ α) (ops : List (Op α)) :
    ∃ t, (HttpBackend.run marshal s ops).sent = s.sent ++ t := by
  induction ops using List.reverseRecOn with
  | nil => exact ⟨[], by simp [HttpBackend.run]⟩
  | append_singleton ops op ih =>
    obtain ⟨t, ht⟩ := ih
    rw [run_append]
    obtain ⟨req, -, ⟨e, h⟩ | ⟨o, w, -, h⟩ | ⟨o, w, n, -, h⟩⟩ :=
      step_spec marshal (HttpBackend.run marshal s ops) op
    · exact ⟨t, by rw [h]; exact ht⟩
    · exact ⟨t ++ [⟨req, o⟩], by rw [h]; simp [ht]⟩
    · exact ⟨t ++ [⟨req, o⟩], by rw [h]; simp [ht]⟩

/-- While no flush is acknowledged, the backend only accumulates: offset and
configuration stay and the buffer is extended by the events written. -/
lemma run_unacked (marshal : α → String) (s : State σ α) (ops : List (Op α))
    (t : List Exchange) (ht : (HttpBackend.run marshal s ops).sent = s.sent ++ t)
    (hfail : ∀ x ∈ t, x.acked = false) :
    (HttpBackend.run marshal s ops).backend
      = { s.backend with buffer := s.backend.buffer ++ written ops } := by
  induction ops using List.reverseRecOn generalizing t with
  | nil => simp [HttpBackend.run, written]
  | append_singleton ops op ih =>
    obtain ⟨t0, ht0⟩ := run_sent_extends marshal s ops
    rw [run_append] at ht ⊢
    obtain ⟨req, -, ⟨e, h⟩ | ⟨o, w, ho, h⟩ | ⟨o, w, n, ho, h⟩⟩ :=
      step_spec marshal (HttpBackend.run marshal s ops) op
    · rw [h] at ht ⊢
      have ht' : t0 = t := by
        have := ht0.symm.trans ht
        exact List.append_cancel_left this
      subst ht'
      simp only [ih t0 ht0 hfail, written_append, List.append_assoc]
    · rw [h] at ht ⊢
      have ht' : t0 ++ [⟨req, o⟩] = t := by
        have h3 : s.sent ++ (t0 ++ [⟨req, o⟩]) = s.sent ++ t := by
          rw [← List.append_assoc, ← ht0]
          exact ht
        exact List.append_cancel_left h3
      subst ht'
      have hfail0 : ∀ x ∈ t0, x.acked = false := fun x hx =>
        hfail x (List.mem_append_left _ hx)
      simp only [ih t0 ht0 hfail0, written_append, List.append_assoc]
    · exfalso
      rw [h] at ht
      have ht' : t0 ++ [⟨req, o⟩] = t := by
        have h3 : s.sent ++ (t0 ++ [⟨req, o⟩]) = s.sent ++ t := by
          rw [← List.append_assoc, ← ht0]
          exact ht
        exact List.append_cancel_left h3
      subst ht'
      have := hfail ⟨req, o⟩ (by simp)
      simp [Exchange.acked, ho] at this

/-- C3: on a backend freshly built by `NewHttpBackend` with `bufferSize > 0`
whose sink always answers 200, writing the events `es` performs exactly
`es.length / bufferSize` flushes; flush `i` carries events
`i*bufferSize .. (i+1)*bufferSize-1` tagged `start_from = i*bufferSize`; the
remaining events stay buffered; a further `Write` flushes exactly when it
brings the buffer to `bufferSize` events.  In particular `bufferSize` events
give one flush of all of them at offset 0, and when `bufferSize > 1`,
`bufferSize + 1` events give that one flush and leave the last event
buffered. -/
theorem C3_write_flushes_at_bufferSize (marshal : α → String)
    (client : σ → Request → Outcome × σ) (url token : String) (bufferSize : Int)
    (hpos : 0 < bufferSize) (hok : ∀ w r, (client w r).1 = Outcome.status 200)
    (w0 : σ) (es : List α) :
    ∃ l0 : HttpBackend σ α, NewHttpBackend client url token bufferSize = Except.ok l0 ∧
      (let bs := bufferSize.toNat
       let s := HttpBackend.run marshal ⟨l0, w0, []⟩ (es.map Op.write)
       s.sent = (List.range (es.length / bs)).map (fun i =>
          ⟨flushRequest url token ((i * bs : ℕ) : Int) (((es.drop (i * bs)).take bs).map marshal),
            Outcome.status 200⟩)
       ∧ s.backend.buffer = es.drop (es.length / bs * bs)
       ∧ s.backend.startFrom = ((es.length / bs * bs : ℕ) : Int)
       ∧ (∀ e, (HttpBackend.Write marshal e s).1.sent.length
            = s.sent.length + (if s.backend.buffer.length + 1 = bs then 1 else 0))
       ∧ (es.length = bs →
            s.sent = [⟨flushRequest url token 0 (es.map marshal), Outcome.status 200⟩]
            ∧ s.backend.buffer = [])
       ∧ (1 < bs → es.length = bs + 1 →
            s.sent = [⟨flushRequest url token 0 ((es.take bs).map marshal), Outcome.status 200⟩]
            ∧ s.backend.buffer = es.drop bs)) := by
  obtain ⟨bs, rfl⟩ : ∃ bs : ℕ, bufferSize = (bs : Int) :=
    ⟨bufferSize.toNat, (Int.toNat_of_nonneg hpos.le).symm⟩
  have hbs : 0 < bs := by exact_mod_cast hpos
  refine ⟨⟨client, url, token, [], (bs : Int), 0⟩, ?_, ?_⟩
  · simp [NewHttpBackend, not_le.mpr hpos]
  · obtain ⟨k, r, w, hlen, hr, hrun⟩ := write_batches marshal client url token bs hbs hok w0 es
    have hk : es.length / bs = k := by
      rw [hlen, Nat.mul_comm, Nat.mul_add_div hbs, Nat.div_eq_of_lt hr, Nat.add_zero]
    have hdroplen : (es.drop (k * bs)).length = r := by simp [hlen]
    have hone : k = 1 →
        (List.range k).map (fun i => (⟨flushRequest url token ((i * bs : ℕ) : Int)
          (((es.drop (i * bs)).take bs).map marshal), Outcome.status 200⟩ : Exchange))
        = [⟨flushRequest url token 0 ((es.take bs).map marshal), Outcome.status 200⟩] := by
      rintro rfl
      simp [List.range_succ]
    simp only [Int.toNat_ofNat, hrun, hk]
    refine ⟨trivial, trivial, trivial, ?_, ?_, ?_⟩
    · intro e
      by_cases hfull : r + 1 = bs
      · have hnlt : ¬ ((es.drop (k * bs) ++ [e]).length : Int) < (bs : Int) := by
          simp only [List.length_append, List.length_singleton, hdroplen]
          exact_mod_cast (by omega : ¬ r + 1 < bs)
        rw [Write_sent_of_reached marshal e _ hnlt (by simp [hok])]
        simp [hdroplen, hfull]
      · have hlt : ((es.drop (k * bs) ++ [e]).length : Int) < (bs : Int) := by
          simp only [List.length_append, List.length_singleton, hdroplen]
          exact_mod_cast (by omega : r + 1 < bs)
        rw [Write_below marshal e _ hlt]
        simp [hdroplen, hfull]
    · intro hfull
      have hk1 : k = 1 := by
        rw [← hk, hfull, Nat.div_self hbs]
      refine ⟨?_, ?_⟩
      · rw [hone hk1, List.take_of_length_le (le_of_eq hfull)]
      · subst hk1
        simp [List.drop_eq_nil_of_le (le_of_eq hfull)]
    · intro hbig hfull
      have hk1 : k = 1 := by
        rw [← hk, hfull, Nat.add_div_left 1 hbs, Nat.div_eq_of_lt hbig]
      refine ⟨hone hk1, ?_⟩
      subst hk1
      simp

/-- Witness for C3: buffer size 2, three events. -/
theorem C3_witness :
    ∃ l0 : HttpBackend Unit String,
      NewHttpBackend sinkOk "https://logs.example" "secret" 2 = Except.ok l0 ∧
      (let bs := (2 : Int).toNat
       let es := ["e0", "e1", "e2"]
       let s := HttpBackend.run id ⟨l0, (), []⟩ (es.map Op.write)
       s.sent = (List.range (es.length / bs)).map (fun i =>
          ⟨flushRequest "https://logs.example" "secret" ((i * bs : ℕ) : Int)
            (((es.drop (i * bs)).take bs).map id), Outcome.status 200⟩)
       ∧ s.backend.buffer = es.drop (es.length / bs * bs)
       ∧ s.backend.startFrom = ((es.length / bs * bs : ℕ) : Int)
       ∧ (∀ e, (HttpBackend.Write id e s).1.sent.length
            = s.sent.length + (if s.backend.buffer.length + 1 = bs then 1 else 0))
       ∧ (es.length = bs →
            s.sent = [⟨flushRequest "https://logs.example" "secret" 0 (es.map id),
              Outcome.status 200⟩]
            ∧ s.backend.buffer = [])
       ∧ (1 < bs → es.length = bs + 1 →
            s.sent = [⟨flushRequest "https://logs.example" "secret" 0 ((es.take bs).map id),
              Outcome.status 200⟩]
            ∧ s.backend.buffer = es.drop bs)) :=
  C3_write_flushes_at_bufferSize id sinkOk "https://logs.example" "secret" 2 (by decide)
    (fun _ _ => rfl) () ["e0", "e1", "e2"]

/-- C3, the case the claim gets wrong: with `bufferSize = 1` every `Write`
reaches the threshold, so writing `bufferSize + 1 = 2` events performs two
flushes (offsets 0 and 1) and leaves nothing buffered. -/
theorem C3_counterexample_bufferSize_one :
    NewHttpBackend sinkOk "https://logs.example" "secret" 1 = Except.ok (backendOk 1) ∧
    (HttpBackend.run id ⟨backendOk 1, (), []⟩ [Op.write "e0", Op.write "e1"]).sent
      = [⟨flushRequest "https://logs.example" "secret" 0 ["e0"], Outcome.status 200⟩,
         ⟨flushRequest "https://logs.example" "secret" 1 ["e1"], Outcome.status 200⟩] ∧
    (HttpBackend.run id ⟨backendOk 1, (), []⟩ [Op.write "e0", Op.write "e1"]).backend.buffer
      = [] := by
  refine ⟨rfl, rfl, rfl⟩

lemma written_cons (op : Op α) (ops : List (Op α)) :
    written (op :: ops) = written [op] ++ written ops := by
  cases op <;> simp [written]

/-- C4: when the flush attempted by an operation (`Write` or `Close`) is not
acknowledged with 200, the operation returns an error, `startFrom` is
unchanged and the buffer holds every event it held at the attempt; and
whatever operations follow, as long as their flushes fail too, the first
flush that succeeds carries those same events followed by the events written
since, in order, tagged with the same `start_from`. -/
theorem C4_failed_flush_keeps_batch (marshal : α → String) (s : State σ α) (op0 : Op α)
    (x0 : Exchange) (hattempt : (HttpBackend.step marshal s op0).1.sent = s.sent ++ [x0])
    (hfail : x0.acked = false) :
    (HttpBackend.step marshal s op0).2 ≠ none
    ∧ (HttpBackend.step marshal s op0).1.backend.startFrom = s.backend.startFrom
    ∧ (HttpBackend.step marshal s op0).1.backend.buffer = s.backend.buffer ++ written [op0]
    ∧ x0.request = flushRequest s.backend.url s.backend.token s.backend.startFrom
        ((s.backend.buffer ++ written [op0]).map marshal)
    ∧ ∀ (ops : List (Op α)) (t : List Exchange) (op1 : Op α) (x1 : Exchange),
        (HttpBackend.run marshal (HttpBackend.step marshal s op0).1 ops).sent
            = (HttpBackend.step marshal s op0).1.sent ++ t →
        (∀ x ∈ t, x.acked = false) →
        (HttpBackend.step marshal
            (HttpBackend.run marshal (HttpBackend.step marshal s op0).1 ops) op1).1.sent
          = (HttpBackend.run marshal (HttpBackend.step marshal s op0).1 ops).sent ++ [x1] →
        x1.acked = true →
        x1.request = flushRequest s.backend.url s.backend.token s.backend.startFrom
          ((s.backend.buffer ++ written (op0 :: (ops ++ [op1]))).map marshal) := by
  obtain ⟨req, hreq, ⟨e0, h⟩ | ⟨o, w, ho, h⟩ | ⟨o, w, n, ho, h⟩⟩ := step_spec marshal s op0
  · rw [h] at hattempt
    simp at hattempt
  · rw [h] at hattempt ⊢
    have hx0 : x0 = ⟨req, o⟩ := by
      have := List.append_cancel_left hattempt
      simpa using this.symm
    subst hx0
    refine ⟨ho, rfl, rfl, hreq, ?_⟩
    intro ops t op1 x1 ht hfail1 hstep hacked
    have hb := run_unacked marshal _ ops t ht hfail1
    obtain ⟨req1, hreq1, ⟨e1, h1⟩ | ⟨o1, w1, ho1, h1⟩ | ⟨o1, w1, n1, ho1, h1⟩⟩ :=
      step_spec marshal (HttpBackend.run marshal
        { backend := { s.backend with buffer := s.backend.buffer ++ written [op0] }
          world := w
          sent := s.sent ++ [⟨req, o⟩] } ops) op1
    · rw [h1] at hstep
      simp at hstep
    · rw [h1] at hstep
      have hx1 : x1 = ⟨req1, o1⟩ := by
        have := List.append_cancel_left hstep
        simpa using this.symm
      subst hx1
      simp [Exchange.acked] at hacked
      exact absurd hacked ho1
    · rw [h1] at hstep
      have hx1 : x1 = ⟨req1, o1⟩ := by
        have := List.append_cancel_left hstep
        simpa using this.symm
      subst hx1
      rw [hreq1, hb, written_cons op0 (ops ++ [op1]), written_append]
      simp only [List.append_assoc]
  · rw [h] at hattempt
    have hx0 : x0 = ⟨req, o⟩ := by
      have := List.append_cancel_left hattempt
      simpa using this.symm
    subst hx0
    simp [Exchange.acked, ho] at hfail

/-- Witness for C4: a backend holding `e4, e5` at offset 4 with threshold 3.
`Write e6` flushes and gets 500; `Write e7` flushes and fails in transport;
`Close` flushes and is acknowledged: its request carries `e4 .. e7` at
offset 4. -/
theorem C4_witness :
    (HttpBackend.step id stateScripted (Op.write "e6")).2 ≠ none
    ∧ (HttpBackend.step id stateScripted (Op.write "e6")).1.backend.startFrom = 4
    ∧ (HttpBackend.step id stateScripted (Op.write "e6")).1.backend.buffer = ["e4", "e5", "e6"]
    ∧ (HttpBackend.run id stateScripted [Op.write "e6", Op.write "e7", Op.close]).sent
        = [⟨flushRequest "https://logs.example" "secret" 4 ["e4", "e5", "e6"], Outcome.status 500⟩,
           ⟨flushRequest "https://logs.example" "secret" 4 ["e4", "e5", "e6", "e7"], Outcome.failure⟩,
           ⟨flushRequest "https://logs.example" "secret" 4 ["e4", "e5", "e6", "e7"],
             Outcome.status 200⟩]
    ∧ (flushRequest "https://logs.example" "secret" 4 ["e4", "e5", "e6", "e7"]
        = flushRequest stateScripted.backend.url stateScripted.backend.token
            stateScripted.backend.startFrom
            ((stateScripted.backend.buffer
              ++ written (Op.write "e6" :: ([Op.write "e7"] ++ [Op.close]))).map id)) :=
  have h := C4_failed_flush_keeps_batch id stateScripted (Op.write "e6")
    ⟨flushRequest "https://logs.example" "secret" 4 ["e4", "e5", "e6"], Outcome.status 500⟩
    rfl rfl
  ⟨h.1, h.2.1, h.2.2.1, rfl,
    h.2.2.2.2 [Op.write "e7"]
      [⟨flushRequest "https://logs.example" "secret" 4 ["e4", "e5", "e6", "e7"], Outcome.failure⟩]
      Op.close
      ⟨flushRequest "https://logs.example" "secret" 4 ["e4", "e5", "e6", "e7"], Outcome.status 200⟩
      rfl (by decide) rfl rfl⟩

/-- C5, as the code has it: `Close` on a non-empty buffer for whose flush
`http.NewRequest` succeeds performs exactly one flush request, carrying every
buffered event at the current offset; when `http.NewRequest` fails, `Close`
performs no request, returns that error and changes nothing; on an empty
buffer it performs no request, returns no error and changes nothing; after a
`Close` that returns no error the buffer is empty. -/
theorem C5_close_flushes_once (marshal : α → String) (s : State σ α) :
    (s.backend.buffer ≠ [] →
      (s.backend.client s.world (flushRequest s.backend.url s.backend.token
        s.backend.startFrom (s.backend.buffer.map marshal))).1 ≠ Outcome.requestError →
      (HttpBackend.Close marshal s).1.sent
        = s.sent ++ [⟨flushRequest s.backend.url s.backend.token s.backend.startFrom
            (s.backend.buffer.map marshal),
            (s.backend.client s.world (flushRequest s.backend.url s.backend.token
              s.backend.startFrom (s.backend.buffer.map marshal))).1⟩])
    ∧ (s.backend.buffer ≠ [] →
      (s.backend.client s.world (flushRequest s.backend.url s.backend.token
        s.backend.startFrom (s.backend.buffer.map marshal))).1 = Outcome.requestError →
      HttpBackend.Close marshal s = (s, some Error.newRequest))
    ∧ (s.backend.buffer = [] → HttpBackend.Close marshal s = (s, none))
    ∧ ((HttpBackend.Close marshal s).2 = none →
        (HttpBackend.Close marshal s).1.backend.buffer = []) := by
  refine ⟨?_, ?_, ?_, ?_⟩
  · intro hne hb
    have hpos : s.backend.buffer.length > 0 := List.length_pos.mpr hne
    simp only [HttpBackend.Close, hpos, if_true, send_eq, hb, if_false]
    split <;> rfl
  · intro hne hb
    have hpos : s.backend.buffer.length > 0 := List.length_pos.mpr hne
    simp only [HttpBackend.Close, hpos, if_true, send_eq, hb]
  · intro hnil
    simp [HttpBackend.Close, hnil]
  · by_cases hpos : s.backend.buffer.length > 0
    · by_cases hb : (s.backend.client s.world (flushRequest s.backend.url s.backend.token
          s.backend.startFrom (s.backend.buffer.map marshal))).1 = Outcome.requestError
      · simp only [HttpBackend.Close, hpos, if_true, send_eq, hb]
        intro h; simp at h
      · simp only [HttpBackend.Close, hpos, if_true, send_eq, hb, if_false]
        split
        · intro h; simp at h
        · intro _; rfl
    · intro _
      simp only [HttpBackend.Close, hpos, if_false]
      exact List.length_eq_zero.mp (by omega)

/-- Witness for C5: the scripted backend holding `e4, e5` at offset 4, facing
a sink that answers 500: `Close` performs the one request carrying `e4, e5`
at offset 4. -/
theorem C5_witness :
    (HttpBackend.Close id stateScripted).1.sent
      = [⟨flushRequest "https://logs.example" "secret" 4 ["e4", "e5"], Outcome.status 500⟩] :=
  (C5_close_flushes_once id stateScripted).1 (by decide) (by decide)

/-- Counterexample to C5 as stated: a backend built by
`NewHttpBackend("://bad", _, 2)` has one event written to it; its url does not
parse, so `Close` finds the buffer non-empty, `http.NewRequest` fails, and no
request at all is performed: the error is returned and the event stays in the
buffer. -/
theorem C5_counterexample_url_does_not_parse :
    NewHttpBackend sinkParsing "://bad" "secret" 2 = Except.ok backendBadUrl ∧
    (HttpBackend.run id ⟨backendBadUrl, (), []⟩ [Op.write "e0"]).backend.buffer = ["e0"] ∧
    (HttpBackend.run id ⟨backendBadUrl, (), []⟩ [Op.write "e0"]).sent = [] ∧
    (HttpBackend.Close id (HttpBackend.run id ⟨backendBadUrl, (), []⟩ [Op.write "e0"])).1.sent
      = [] ∧
    (HttpBackend.Close id (HttpBackend.run id ⟨backendBadUrl, (), []⟩ [Op.write "e0"])).2
      = some Error.newRequest ∧
    (HttpBackend.Close id
      (HttpBackend.run id ⟨backendBadUrl, (), []⟩ [Op.write "e0"])).1.backend.buffer = ["e0"] := by
  refine ⟨rfl, ?_, ?_, ?_, ?_, ?_⟩ <;> decide

/-- C6, evaluated on the code: after `NewHttpBackend(_, _, 2)` and
`Write e0; Write e1; Write e2; Close` against a sink that always answers 200,
three events have been acknowledged and `startFrom` was 2 before `Close`,
yet `Close` leaves `startFrom = 0`: it stores the length of the buffer it has
just cleared. -/
theorem C6_close_resets_startFrom :
    NewHttpBackend sinkOk "https://logs.example" "secret" 2 = Except.ok (backendOk 2) ∧
    (HttpBackend.run id ⟨backendOk 2, (), []⟩
        [Op.write "e0", Op.write "e1", Op.write "e2"]).backend.startFrom = 2 ∧
    (HttpBackend.run id ⟨backendOk 2, (), []⟩
        [Op.write "e0", Op.write "e1", Op.write "e2", Op.close]).backend.startFrom = 0 ∧
    ackedCount (HttpBackend.run id ⟨backendOk 2, (), []⟩
        [Op.write "e0", Op.write "e1", Op.write "e2", Op.close]).sent = 3 := by
  refine ⟨rfl, rfl, rfl, rfl⟩

end Agent.Eventlogger

/-! ## Theorems: job lifecycle -/

namespace Agent.Jobs

variable {σ : Type}

/-- The archival wait is left at once when the log is already archived. -/
lemma waitForArchivator_archived (fuel : Nat) (p : Proc σ) (h : p.job.JobLogArchived = true) :
    Job.waitForArchivator fuel p = (p, true) := by
  cases fuel <;> simp [Job.waitForArchivator, h]

/-- The archival wait is never left while the log is not archived: every unit
of fuel is spent on one more sleep. -/
lemma waitForArchivator_pending (fuel : Nat) (p : Proc σ) (h : p.job.JobLogArchived = false) :
    Job.waitForArchivator fuel p
      = ({ p with trace := p.trace ++ List.replicate fuel (Effect.sleep 1000) }, false) := by
  induction fuel generalizing p with
  | zero => simp [Job.waitForArchivator, h]
  | succ n ih =>
    simp only [Job.waitForArchivator, h, Bool.false_eq_true, if_false]
    rw [ih (p.emit (Effect.sleep 1000)) h]
    simp [Proc.emit, List.replicate_succ]

/-- A call of `Teardown` that finds the gate taken does nothing. -/
lemma Teardown_locked (fuel : Nat) (p : Proc σ) (result : String)
    (h : p.job.TeardownLock.locked = true) :
    Job.Teardown fuel p result = (p, true) := by
  obtain ⟨job, world, trace⟩ := p
  obtain ⟨rq, lg, ex, a, st, fin, ⟨lk⟩⟩ := job
  simp only at h
  subst h
  simp [Job.Teardown, Lock.TryLock]

/-- A call of `Teardown` that takes the gate, when the archival wait ends. -/
lemma Teardown_free (fuel : Nat) (p : Proc σ) (result : String)
    (hgate : p.job.TeardownLock.locked = false)
    (hwait : p.job.Request.Logger.Method ≠ LoggerMethodPull ∨ p.job.JobLogArchived = true) :
    Job.Teardown fuel p result
      = ({ job := { p.job with TeardownLock := { locked := true } }
           world := p.world
           trace := p.trace ++
             [Effect.callback p.job.Request.Callbacks.Finished (finishedPayload result),
              Effect.logJobFinished result,
              Effect.loggerClose,
              Effect.callback p.job.Request.Callbacks.TeardownFinished "\x7b\x7d"] }, true) := by
  by_cases hm : p.job.Request.Logger.Method = LoggerMethodPull
  · have ha : p.job.JobLogArchived = true := by
      rcases hwait with h | h
      · exact absurd hm h
      · exact h
    simp [Job.Teardown, Lock.TryLock, hgate, Job.SendFinishedCallback, Job.SendCallback,
      Proc.emit, hm, waitForArchivator_archived, ha, Job.SendTeardownFinishedCallback]
  · simp [Job.Teardown, Lock.TryLock, hgate, Job.SendFinishedCallback, Job.SendCallback,
      Proc.emit, hm, Job.SendTeardownFinishedCallback]

/-- A call of `Teardown` that takes the gate of a pull-mode job whose log is
not archived: finished callback, log event, then sleeps for as long as the
fuel lasts, and no return. -/
lemma Teardown_blocked (fuel : Nat) (p : Proc σ) (result : String)
    (hgate : p.job.TeardownLock.locked = false)
    (hm : p.job.Request.Logger.Method = LoggerMethodPull)
    (ha : p.job.JobLogArchived = false) :
    Job.Teardown fuel p result
      = ({ job := { p.job with TeardownLock := { locked := true } }
           world := p.world
           trace := p.trace ++
             [Effect.callback p.job.Request.Callbacks.Finished (finishedPayload result),
              Effect.logJobFinished result] ++ List.replicate fuel (Effect.sleep 1000) }, false) := by
  simp [Job.Teardown, Lock.TryLock, hgate, Job.SendFinishedCallback, Job.SendCallback,
    Proc.emit, hm, waitForArchivator_pending, ha]

/-- A call of `Teardown` that takes the gate always sends the finished
callback and the job-finished log event; it then sleeps some number of times
and, if it returns, closes the logger and sends the teardown-finished
callback. -/
lemma Teardown_gate_free (fuel : Nat) (p : Proc σ) (result : String)
    (hgate : p.job.TeardownLock.locked = false) :
    ∃ n ret, Job.Teardown fuel p result
      = ({ job := { p.job with TeardownLock := { locked := true } }
           world := p.world
           trace := p.trace ++
             [Effect.callback p.job.Request.Callbacks.Finished (finishedPayload result),
              Effect.logJobFinished result] ++ List.replicate n (Effect.sleep 1000) ++
             (if ret then [Effect.loggerClose,
                Effect.callback p.job.Request.Callbacks.TeardownFinished "\x7b\x7d"] else []) },
          ret) := by
  by_cases hwait : p.job.Request.Logger.Method ≠ LoggerMethodPull ∨ p.job.JobLogArchived = true
  · exact ⟨0, true, by rw [Teardown_free fuel p result hgate hwait]; simp⟩
  · push_neg at hwait
    refine ⟨fuel, false, ?_⟩
    rw [Teardown_blocked fuel p result hgate hwait.1 (by simpa using hwait.2)]
    simp

/-- `Stop` on a job whose gate is taken: the flag is set, the executor is
asked to stop, and nothing else happens. -/
lemma Stop_locked (fuel : Nat) (job : Job σ) (world : σ) (trace : List Effect)
    (h : job.TeardownLock.locked = true) :
    Job.Stop fuel ⟨job, world, trace⟩
      = (⟨{ job with Stopped := true }, (job.Executor.Stop world).2, trace ++ [Effect.stop]⟩,
          true) := by
  simp only [Job.Stop, PreventPanicPropagation]
  rw [Teardown_locked fuel _ "stopped" h]

/-- `Stop` on a job whose gate is free, when the archival wait ends. -/
lemma Stop_free (fuel : Nat) (job : Job σ) (world : σ) (trace : List Effect)
    (hgate : job.TeardownLock.locked = false)
    (hwait : job.Request.Logger.Method ≠ LoggerMethodPull ∨ job.JobLogArchived = true) :
    Job.Stop fuel ⟨job, world, trace⟩
      = (⟨{ job with Stopped := true, TeardownLock := { locked := true } },
           (job.Executor.Stop world).2,
           trace ++ [Effect.stop,
             Effect.callback job.Request.Callbacks.Finished (finishedPayload "stopped"),
             Effect.logJobFinished "stopped",
             Effect.loggerClose,
             Effect.callback job.Request.Callbacks.TeardownFinished "\x7b\x7d"]⟩, true) := by
  simp only [Job.Stop, PreventPanicPropagation]
  rw [Teardown_free fuel _ "stopped" hgate hwait]
  simp

/-- Calls arriving after the gate has been taken perform only what precedes
the gate, and all return. -/
lemma performAll_locked (fuel : Nat) (calls : List Call) :
    ∀ (job : Job σ) (world : σ), job.TeardownLock.locked = true →
      (Job.performAll fuel job world calls).effects = calls.map Call.beforeGate
      ∧ (Job.performAll fuel job world calls).returned = true := by
  induction calls with
  | nil => intro job world _; simp [Job.performAll]
  | cons c cs ih =>
    intro job world h
    cases c with
    | stop =>
      have hs := Stop_locked fuel job world [] h
      have := ih { job with Stopped := true } (job.Executor.Stop world).2 h
      simp only [Job.performAll, Job.perform, hs]
      simp [this.1, this.2, Call.beforeGate]
    | teardown result =>
      have ht := Teardown_locked fuel ⟨job, world, []⟩ result h
      have := ih job world h
      simp only [Job.performAll, Job.perform, ht]
      simp [this.1, this.2, Call.beforeGate]

lemma beforeGate_no_callback (calls : List Call) :
    (calls.map Call.beforeGate).flatten.filter Effect.isCallback = [] := by
  induction calls with
  | nil => rfl
  | cons c cs ih =>
    cases c <;> simpa [Call.beforeGate, Effect.isCallback] using ih

/-- C1: take a job whose teardown gate is free and whose archival wait ends
(logger method not pull, or log already archived).  Let `N` calls of `Stop`
and the end-of-run call of `Teardown` reach the gate in any order.  Then every
call returns; the first call alone sends the finished callback (with its own
result), writes the job-finished log event, closes the logger and sends the
teardown-finished callback, so exactly one callback of each kind is sent; and
every other call performs nothing beyond what precedes the gate (`Stop` asks
the executor to stop): no callback, no log event, no logger close. -/
theorem C1_teardown_exactly_once (fuel N : Nat) (job : Job σ) (world : σ) (result : String)
    (calls : List Call)
    (horder : calls.Perm (Call.teardown result :: List.replicate N Call.stop))
    (hgate : job.TeardownLock.locked = false)
    (hwait : job.Request.Logger.Method ≠ LoggerMethodPull ∨ job.JobLogArchived = true) :
    ∃ first rest, calls = first :: rest ∧
      (Job.performAll fuel job world calls).returned = true ∧
      (Job.performAll fuel job world calls).effects.flatten.filter Effect.isCallback
        = [Effect.callback job.Request.Callbacks.Finished (finishedPayload first.result),
           Effect.callback job.Request.Callbacks.TeardownFinished "\x7b\x7d"] ∧
      (Job.performAll fuel job world calls).effects
        = (first.beforeGate ++
            [Effect.callback job.Request.Callbacks.Finished (finishedPayload first.result),
             Effect.logJobFinished first.result,
             Effect.loggerClose,
             Effect.callback job.Request.Callbacks.TeardownFinished "\x7b\x7d"])
          :: rest.map Call.beforeGate := by
  cases calls with
  | nil =>
    have := horder.length_eq
    simp at this
  | cons first rest =>
    refine ⟨first, rest, rfl, ?_⟩
    cases first with
    | stop =>
      have hs := Stop_free fuel job world [] hgate hwait
      have hl := performAll_locked fuel rest
        { job with Stopped := true, TeardownLock := { locked := true } }
        (job.Executor.Stop world).2 rfl
      simp only [Job.performAll, Job.perform, hs]
      refine ⟨by simp [hl.2], ?_, by simp [hl.1, Call.beforeGate, Call.result]⟩
      simp only [hl.1, List.flatten_cons, List.filter_append, beforeGate_no_callback,
        List.append_nil, List.nil_append, Call.result]
      rfl
    | teardown res =>
      have ht := Teardown_free fuel ⟨job, world, []⟩ res hgate hwait
      dsimp only at ht
      have hl := performAll_locked fuel rest
        { job with TeardownLock := { locked := true } } world rfl
      simp only [Job.performAll, Job.perform, ht]
      refine ⟨by simp [hl.2], ?_, by simp [hl.1, Call.beforeGate, Call.result]⟩
      simp only [hl.1, List.flatten_cons, List.filter_append, beforeGate_no_callback,
        List.append_nil, List.nil_append, Call.result]
      rfl

/-- Witness for C1: two calls of `Stop` racing with the end of a failed run,
the end of the run reaching the gate between them. -/
theorem C1_witness :
    ∃ first rest, [Call.stop, Call.teardown "failed", Call.stop] = first :: rest ∧
      (Job.performAll 0 (freshJob requestFailing) 0
        [Call.stop, Call.teardown "failed", Call.stop]).returned = true ∧
      (Job.performAll 0 (freshJob requestFailing) 0
        [Call.stop, Call.teardown "failed", Call.stop]).effects.flatten.filter Effect.isCallback
        = [Effect.callback (freshJob requestFailing).Request.Callbacks.Finished
             (finishedPayload first.result),
           Effect.callback (freshJob requestFailing).Request.Callbacks.TeardownFinished
             "\x7b\x7d"] ∧
      (Job.performAll 0 (freshJob requestFailing) 0
        [Call.stop, Call.teardown "failed", Call.stop]).effects
        = (first.beforeGate ++
            [Effect.callback (freshJob requestFailing).Request.Callbacks.Finished
               (finishedPayload first.result),
             Effect.logJobFinished first.result,
             Effect.loggerClose,
             Effect.callback (freshJob requestFailing).Request.Callbacks.TeardownFinished
               "\x7b\x7d"])
          :: rest.map Call.beforeGate :=
  C1_teardown_exactly_once 0 2 (freshJob requestFailing) 0 "failed"
    [Call.stop, Call.teardown "failed", Call.stop] (by decide) rfl (Or.inl (by decide))

/-- C9: on an empty command sequence `RunCommandsUntilFirstFailure` returns
1 and runs nothing (job, world and trace are as before); and on any command
sequence, if `Stopped` is set on entry, it returns 1 and runs nothing. -/
theorem C9_nothing_executed_returns_one (p : Proc σ) :
    Job.RunCommandsUntilFirstFailure p [] = (1, p)
    ∧ ∀ commands : List Command, p.job.Stopped = true →
        Job.RunCommandsUntilFirstFailure p commands = (1, p) := by
  refine ⟨rfl, ?_⟩
  intro commands hs
  cases commands with
  | nil => rfl
  | cons c cs => simp [Job.RunCommandsUntilFirstFailure, Job.commandLoop, hs]

/-- The command loop on a sequence whose commands before `c` all exit 0 and
whose command `c` exits nonzero: exactly the commands up to and including `c`
are run, and the exit code of `c` is returned. -/
lemma commandLoop_first_failure (job : Job σ) (hs : job.Stopped = false) (c : Command)
    (post : List Command) (w5 : σ)
    (hfail : (job.Executor.RunCommand c.Directive false c.Alias w5).1 ≠ 0) :
    ∀ (pre : List Command) (last : Int) (w : σ) (tr : List Effect),
      Executor.passAll job.Executor pre w = some w5 →
      Job.commandLoop (pre ++ c :: post) last ⟨job, w, tr⟩
        = ((job.Executor.RunCommand c.Directive false c.Alias w5).1,
            ⟨job, (job.Executor.RunCommand c.Directive false c.Alias w5).2,
              tr ++ (pre ++ [c]).map Command.effect⟩) := by
  intro pre
  induction pre with
  | nil =>
    intro last w tr hpass
    simp only [Executor.passAll, Option.some.injEq] at hpass
    subst hpass
    simp [Job.commandLoop, hs, Proc.call, hfail, Command.effect]
  | cons a pre ih =>
    intro last w tr hpass
    by_cases ha : (job.Executor.RunCommand a.Directive false a.Alias w).1 = 0
    · simp only [Executor.passAll, ha, if_true] at hpass
      have h := ih 0 (job.Executor.RunCommand a.Directive false a.Alias w).2
        (tr ++ [Command.effect a]) hpass
      simp only [List.cons_append, Job.commandLoop, hs, Proc.call, ha, ne_eq, not_true_eq_false,
        Bool.false_eq_true, if_false]
      simpa [Command.effect] using h
    · simp [Executor.passAll, ha] at hpass

/-- The command loop on a sequence whose commands all exit 0: all are run; the
exit code is 0, or the initial one if there was no command. -/
lemma commandLoop_all_pass (job : Job σ) (hs : job.Stopped = false) :
    ∀ (cmds : List Command) (last : Int) (w w5 : σ) (tr : List Effect),
      Executor.passAll job.Executor cmds w = some w5 →
      Job.commandLoop cmds last ⟨job, w, tr⟩
        = (if cmds = [] then last else 0, ⟨job, w5, tr ++ cmds.map Command.effect⟩) := by
  intro cmds
  induction cmds with
  | nil =>
    intro last w w5 tr hpass
    simp only [Executor.passAll, Option.some.injEq] at hpass
    subst hpass
    simp [Job.commandLoop]
  | cons a cmds ih =>
    intro last w w5 tr hpass
    by_cases ha : (job.Executor.RunCommand a.Directive false a.Alias w).1 = 0
    · simp only [Executor.passAll, ha, if_true] at hpass
      simp only [Job.commandLoop, hs, Proc.call, ha, ne_eq, not_true_eq_false,
        Bool.false_eq_true, if_false]
      rw [ih _ _ _ _ hpass]
      by_cases hc : cmds = [] <;> simp [hc, Command.effect]
    · simp [Executor.passAll, ha] at hpass

/-- The command loop of a job that is not stopped runs a prefix of the
sequence, in order, and at least the first command if there is one. -/
lemma commandLoop_runs_initial (job : Job σ) (hs : job.Stopped = false) :
    ∀ (cmds : List Command) (last : Int) (w : σ) (tr : List Effect),
      ∃ (k : Nat) (w1 : σ), (cmds ≠ [] → 0 < k) ∧
        (Job.commandLoop cmds last ⟨job, w, tr⟩).2
          = ⟨job, w1, tr ++ (cmds.take k).map Command.effect⟩ := by
  intro cmds
  induction cmds with
  | nil =>
    intro last w tr
    exact ⟨0, w, by simp, by simp [Job.commandLoop]⟩
  | cons a cmds ih =>
    intro last w tr
    by_cases ha : (job.Executor.RunCommand a.Directive false a.Alias w).1 = 0
    · obtain ⟨k, w1, -, hk⟩ := ih (job.Executor.RunCommand a.Directive false a.Alias w).1
        (job.Executor.RunCommand a.Directive false a.Alias w).2
        (tr ++ [Command.effect a])
      refine ⟨k + 1, w1, fun _ => Nat.succ_pos k, ?_⟩
      simp only [Job.commandLoop, hs, Proc.call, ha, ne_eq, not_true_eq_false,
        Bool.false_eq_true, if_false]
      simp only [Command.effect] at hk ⊢
      rw [ha] at hk
      rw [hk]
      simp [Command.effect]
    · refine ⟨1, (job.Executor.RunCommand a.Directive false a.Alias w).2,
        fun _ => Nat.one_pos, ?_⟩
      simp [Job.commandLoop, hs, Proc.call, ha, Command.effect]

/-- A single command is run whatever it returns. -/
lemma untilFirstFailure_singleton (ex : Executor σ) (c : Command) (w : σ) :
    Executor.untilFirstFailure ex [c] w = [c] := by
  simp [Executor.untilFirstFailure]

lemma worldAfter_singleton (ex : Executor σ) (c : Command) (w : σ) :
    Executor.worldAfter ex [c] w = (ex.RunCommand c.Directive false c.Alias w).2 := by
  simp [Executor.worldAfter]

/-- The command loop of a job that is not stopped runs exactly the commands
of the sequence up to and including the first one that exits nonzero, in
order. -/
lemma commandLoop_exact (job : Job σ) (hs : job.Stopped = false) :
    ∀ (cmds : List Command) (last : Int) (w : σ) (tr : List Effect),
      (Job.commandLoop cmds last ⟨job, w, tr⟩).2
        = ⟨job, Executor.worldAfter job.Executor cmds w,
            tr ++ (Executor.untilFirstFailure job.Executor cmds w).map Command.effect⟩ := by
  intro cmds
  induction cmds with
  | nil =>
    intro last w tr
    simp [Job.commandLoop, Executor.worldAfter, Executor.untilFirstFailure]
  | cons a cmds ih =>
    intro last w tr
    by_cases ha : (job.Executor.RunCommand a.Directive false a.Alias w).1 = 0
    · simp only [Job.commandLoop, hs, Proc.call, ha, ne_eq, not_true_eq_false,
        Bool.false_eq_true, if_false, Executor.worldAfter, Executor.untilFirstFailure]
      rw [ih]
      simp [Command.effect]
    · simp [Job.commandLoop, hs, Proc.call, ha, Executor.worldAfter,
        Executor.untilFirstFailure, Command.effect]

/-- What `Executor.untilFirstFailure` selects from a non-empty sequence: the
commands up to and including the one at a position `k`, where the commands
before `k` all exit 0 and the command at `k` exits nonzero or is the last. -/
lemma untilFirstFailure_spec (ex : Executor σ) :
    ∀ (cmds : List Command), cmds ≠ [] → ∀ (w : σ),
      ∃ (k : Nat) (c : Command) (wk : σ),
        cmds[k]? = some c
        ∧ Executor.passAll ex (cmds.take k) w = some wk
        ∧ ((ex.RunCommand c.Directive false c.Alias wk).1 ≠ 0 ∨ k + 1 = cmds.length)
        ∧ Executor.untilFirstFailure ex cmds w = cmds.take (k + 1) := by
  intro cmds
  induction cmds with
  | nil => intro h; exact absurd rfl h
  | cons a rest ih =>
    intro _ w
    by_cases ha : (ex.RunCommand a.Directive false a.Alias w).1 = 0
    · by_cases hrest : rest = []
      · subst hrest
        exact ⟨0, a, w, by simp, rfl, Or.inr rfl, by simp [Executor.untilFirstFailure]⟩
      · obtain ⟨k, c, wk, hk, hpass, hlast, hsel⟩ :=
          ih hrest (ex.RunCommand a.Directive false a.Alias w).2
        refine ⟨k + 1, c, wk, by simpa using hk, ?_, ?_, ?_⟩
        · simp only [List.take_succ_cons, Executor.passAll, ha, if_true]
          exact hpass
        · rcases hlast with h | h
          · exact Or.inl h
          · exact Or.inr (by simp only [List.length_cons]; omega)
        · simp [Executor.untilFirstFailure, ha, hsel]
    · exact ⟨0, a, w, by simp, rfl, Or.inl ha, by simp [Executor.untilFirstFailure, ha]⟩

/-- The part of `Run` after the regular commands: result export, epilogues,
teardown, for a job that is not stopped, whose gate is free and whose
executor booted: the result export, the epilogue-always sequence until its
first failure, then the epilogue sequence selected by the result until its
first failure. -/
lemma Run_after_boot (fuel : Nat) (job : Job σ) (world w2 : σ)
    (finishedCallback : Option (σ → σ))
    (hstopped : job.Stopped = false) (hgate : job.TeardownLock.locked = false)
    (hboot : Job.PrepareEnvironment ⟨job, world, [Effect.logJobStarted]⟩
      = (0, ⟨job, w2, [Effect.logJobStarted, Effect.prepare, Effect.start]⟩))
    (result : String) (w5 : σ) (tr : List Effect)
    (hregular : Job.RunRegularCommands
        ⟨job, w2, [Effect.logJobStarted, Effect.prepare, Effect.start]⟩
      = (result, ⟨job, w5, tr⟩)) :
    ∃ (n : Nat),
      (Job.Run fuel ⟨job, world, []⟩ finishedCallback).1.trace =
        tr ++ [Effect.runCommand ("export SEMAPHORE_JOB_RESULT=" ++ result) false ""]
          ++ (Executor.untilFirstFailure job.Executor job.Request.EpilogueAlwaysCommands
                (job.Executor.RunCommand ("export SEMAPHORE_JOB_RESULT=" ++ result)
                  false "" w5).2).map Command.effect
          ++ (Executor.untilFirstFailure job.Executor
                (if result = JOB_PASSED then job.Request.EpilogueOnPassCommands
                  else job.Request.EpilogueOnFailCommands)
                (Executor.worldAfter job.Executor job.Request.EpilogueAlwaysCommands
                  (job.Executor.RunCommand ("export SEMAPHORE_JOB_RESULT=" ++ result)
                    false "" w5).2)).map Command.effect
          ++ [Effect.callback job.Request.Callbacks.Finished (finishedPayload result),
              Effect.logJobFinished result]
          ++ List.replicate n (Effect.sleep 1000)
          ++ (if (Job.Run fuel ⟨job, world, []⟩ finishedCallback).2 then
                [Effect.loggerClose,
                 Effect.callback job.Request.Callbacks.TeardownFinished "\x7b\x7d"]
                ++ (if finishedCallback.isSome then [Effect.finishedCallback] else [])
              else []) := by
  have h1 := commandLoop_exact job hstopped
    [{ Directive := "export SEMAPHORE_JOB_RESULT=" ++ result, Alias := "" }] 1 w5 tr
  rw [untilFirstFailure_singleton, worldAfter_singleton] at h1
  simp only [List.map_cons, List.map_nil, Command.effect] at h1
  generalize hw6 : (job.Executor.RunCommand ("export SEMAPHORE_JOB_RESULT=" ++ result)
    false "" w5).2 = w6 at h1 ⊢
  have h2 := commandLoop_exact job hstopped job.Request.EpilogueAlwaysCommands 1 w6
    (tr ++ [Effect.runCommand ("export SEMAPHORE_JOB_RESULT=" ++ result) false ""])
  generalize hw7 : Executor.worldAfter job.Executor job.Request.EpilogueAlwaysCommands w6
    = w7 at h2 ⊢
  generalize hta : (Executor.untilFirstFailure job.Executor job.Request.EpilogueAlwaysCommands
    w6).map Command.effect = ta at h2 ⊢
  have h3 := commandLoop_exact job hstopped
    (if result = JOB_PASSED then job.Request.EpilogueOnPassCommands
      else job.Request.EpilogueOnFailCommands) 1 w7
    (tr ++ [Effect.runCommand ("export SEMAPHORE_JOB_RESULT=" ++ result) false ""] ++ ta)
  generalize hw8 : Executor.worldAfter job.Executor
    (if result = JOB_PASSED then job.Request.EpilogueOnPassCommands
      else job.Request.EpilogueOnFailCommands) w7 = w8 at h3
  generalize htr : (Executor.untilFirstFailure job.Executor
    (if result = JOB_PASSED then job.Request.EpilogueOnPassCommands
      else job.Request.EpilogueOnFailCommands) w7).map Command.effect = tres at h3 ⊢
  obtain ⟨n, ret, ht⟩ := Teardown_gate_free fuel
    ⟨job, w8, tr ++ [Effect.runCommand ("export SEMAPHORE_JOB_RESULT=" ++ result) false ""]
      ++ ta ++ tres⟩ result hgate
  refine ⟨n, ?_⟩
  have hrun : Job.Run fuel ⟨job, world, []⟩ finishedCallback
      = (if !ret then
          ((Job.Teardown fuel
            ⟨job, w8, tr ++ [Effect.runCommand ("export SEMAPHORE_JOB_RESULT=" ++ result) false ""]
              ++ ta ++ tres⟩ result).1, false)
        else
          match finishedCallback with
          | some f =>
            ({ job := { (Job.Teardown fuel
                ⟨job, w8, tr ++ [Effect.runCommand ("export SEMAPHORE_JOB_RESULT=" ++ result) false ""]
                  ++ ta ++ tres⟩ result).1.job with Finished := true }
               world := f (Job.Teardown fuel
                ⟨job, w8, tr ++ [Effect.runCommand ("export SEMAPHORE_JOB_RESULT=" ++ result) false ""]
                  ++ ta ++ tres⟩ result).1.world
               trace := (Job.Teardown fuel
                ⟨job, w8, tr ++ [Effect.runCommand ("export SEMAPHORE_JOB_RESULT=" ++ result) false ""]
                  ++ ta ++ tres⟩ result).1.trace ++ [Effect.finishedCallback] }, true)
          | none =>
            ({ (Job.Teardown fuel
                ⟨job, w8, tr ++ [Effect.runCommand ("export SEMAPHORE_JOB_RESULT=" ++ result) false ""]
                  ++ ta ++ tres⟩ result).1 with
               job := { (Job.Teardown fuel
                ⟨job, w8, tr ++ [Effect.runCommand ("export SEMAPHORE_JOB_RESULT=" ++ result) false ""]
                  ++ ta ++ tres⟩ result).1.job with Finished := true } }, true)) := by
    simp only [Job.Run, Proc.emit, List.nil_append, hboot, decide_True, if_true, hregular,
      Job.RunCommandsUntilFirstFailure]
    rw [h1]
    by_cases hres : result = JOB_PASSED
    · simp only [hres, if_true] at h2 h3 ht ⊢
      rw [h2, h3, ht]
    · simp only [hres, if_false] at h2 h3 ht ⊢
      rw [h2, h3, ht]
  rw [hrun, ht]
  cases ret <;> cases finishedCallback <;> simp

lemma boot_ok (job : Job σ) (world w1 w2 : σ) (tr : List Effect)
    (hprepare : job.Executor.Prepare world = (0, w1))
    (hstart : job.Executor.Start w1 = (0, w2)) :
    Job.PrepareEnvironment ⟨job, world, tr⟩
      = (0, ⟨job, w2, tr ++ [Effect.prepare, Effect.start]⟩) := by
  simp [Job.PrepareEnvironment, Proc.call, hprepare, hstart]

lemma commands_no_callback (cmds : List Command) :
    (cmds.map Command.effect).filter Effect.isCallback = [] := by
  induction cmds with
  | nil => rfl
  | cons c cs ih => simp [Command.effect, Effect.isCallback, ih]

lemma sleeps_no_callback (n : Nat) :
    (List.replicate n (Effect.sleep 1000)).filter Effect.isCallback = [] := by
  induction n with
  | zero => rfl
  | succ n ih => simp [List.replicate_succ, Effect.isCallback, ih]

/-- C7: let prepare, start, env-var export and file injection return 0, let
the job not be stopped (flag clear, gate free), and let the regular commands
be `pre ++ c :: post` where every command of `pre` exits 0 and `c` exits
nonzero.  Then the trace of `Run` is: job-started event, prepare, start,
export, inject; the regular commands `pre` and `c` and no command of `post`;
the result export with `failed`; the epilogue-always sequence until its first
failure (run in the world the result export left); the epilogue-on-fail
sequence until its first failure (run in the world the epilogue-always
commands left); no epilogue-on-pass command; then the teardown with result
`failed`: finished callback `{"result": "failed"}`, job-finished event, the
archival wait, and once that ends logger close, teardown-finished callback
and the caller's callback.  Running a non-empty sequence until its first
failure means running its commands up to and including the one at some
position `k`, where the commands before `k` all exit 0 and the command at `k`
exits nonzero or is the last of the sequence. -/
theorem C7_first_failure_ends_regular_commands (fuel : Nat) (job : Job σ)
    (world w1 w2 w3 w4 w5 : σ) (finishedCallback : Option (σ → σ))
    (pre post : List Command) (c : Command)
    (hstopped : job.Stopped = false)
    (hgate : job.TeardownLock.locked = false)
    (hprepare : job.Executor.Prepare world = (0, w1))
    (hstart : job.Executor.Start w1 = (0, w2))
    (hexport : job.Executor.ExportEnvVars job.Request.EnvVars w2 = (0, w3))
    (hinject : job.Executor.InjectFiles job.Request.Files w3 = (0, w4))
    (hcommands : job.Request.Commands = pre ++ c :: post)
    (hpre : Executor.passAll job.Executor pre w4 = some w5)
    (hfail : (job.Executor.RunCommand c.Directive false c.Alias w5).1 ≠ 0) :
    (∃ (n : Nat),
      (Job.Run fuel ⟨job, world, []⟩ finishedCallback).1.trace =
        [Effect.logJobStarted, Effect.prepare, Effect.start,
          Effect.exportEnvVars job.Request.EnvVars, Effect.injectFiles job.Request.Files]
          ++ (pre ++ [c]).map Command.effect
          ++ [Effect.runCommand "export SEMAPHORE_JOB_RESULT=failed" false ""]
          ++ (Executor.untilFirstFailure job.Executor job.Request.EpilogueAlwaysCommands
                (job.Executor.RunCommand "export SEMAPHORE_JOB_RESULT=failed" false ""
                  (job.Executor.RunCommand c.Directive false c.Alias w5).2).2).map Command.effect
          ++ (Executor.untilFirstFailure job.Executor job.Request.EpilogueOnFailCommands
                (Executor.worldAfter job.Executor job.Request.EpilogueAlwaysCommands
                  (job.Executor.RunCommand "export SEMAPHORE_JOB_RESULT=failed" false ""
                    (job.Executor.RunCommand c.Directive false c.Alias w5).2).2)).map
                Command.effect
          ++ [Effect.callback job.Request.Callbacks.Finished "\x7b\"result\": \"failed\"\x7d",
              Effect.logJobFinished "failed"]
          ++ List.replicate n (Effect.sleep 1000)
          ++ (if (Job.Run fuel ⟨job, world, []⟩ finishedCallback).2 then
                [Effect.loggerClose,
                 Effect.callback job.Request.Callbacks.TeardownFinished "\x7b\x7d"]
                ++ (if finishedCallback.isSome then [Effect.finishedCallback] else [])
              else []))
    ∧ ∀ (cmds : List Command) (w : σ), cmds ≠ [] →
        ∃ (k : Nat) (last : Command) (wk : σ),
          cmds[k]? = some last
          ∧ Executor.passAll job.Executor (cmds.take k) w = some wk
          ∧ ((job.Executor.RunCommand last.Directive false last.Alias wk).1 ≠ 0
              ∨ k + 1 = cmds.length)
          ∧ Executor.untilFirstFailure job.Executor cmds w = cmds.take (k + 1) := by
  refine ⟨?_, fun cmds w hne => untilFirstFailure_spec job.Executor cmds hne w⟩
  have hboot := boot_ok job world w1 w2 [Effect.logJobStarted] hprepare hstart
  have hloop := commandLoop_first_failure job hstopped c post w5 hfail pre 1 w4
    ([Effect.logJobStarted, Effect.prepare, Effect.start] ++
      ([Effect.exportEnvVars job.Request.EnvVars] ++ [Effect.injectFiles job.Request.Files])) hpre
  have hregular : Job.RunRegularCommands
        ⟨job, w2, [Effect.logJobStarted, Effect.prepare, Effect.start]⟩
      = (JOB_FAILED, ⟨job, (job.Executor.RunCommand c.Directive false c.Alias w5).2,
          [Effect.logJobStarted, Effect.prepare, Effect.start,
            Effect.exportEnvVars job.Request.EnvVars, Effect.injectFiles job.Request.Files]
            ++ (pre ++ [c]).map Command.effect⟩) := by
    simp only [Job.RunRegularCommands, Proc.call, hexport, hinject, ne_eq, not_true_eq_false,
      if_false, Job.RunCommandsUntilFirstFailure, hcommands, List.append_assoc]
    rw [hloop]
    simp [hfail]
  have hne : JOB_FAILED ≠ JOB_PASSED := by decide
  obtain ⟨n, htrace⟩ := Run_after_boot fuel job world w2 finishedCallback
    hstopped hgate hboot JOB_FAILED _ _ hregular
  simp only [hne, if_false] at htrace
  exact ⟨n, htrace⟩

/-- Witness for C7: the job `requestFailing`, whose second command is
`false`; the third command `echo never` is not run, the one epilogue-always
command and the one epilogue-on-fail command are. -/
theorem C7_witness :
    (∃ (n : Nat),
      (Job.Run 0 ⟨freshJob requestFailing, 0, []⟩ none).1.trace =
        [Effect.logJobStarted, Effect.prepare, Effect.start,
          Effect.exportEnvVars (freshJob requestFailing).Request.EnvVars,
          Effect.injectFiles (freshJob requestFailing).Request.Files]
          ++ ([Command.mk "echo ok" "first"] ++ [Command.mk "false" "second"]).map Command.effect
          ++ [Effect.runCommand "export SEMAPHORE_JOB_RESULT=failed" false ""]
          ++ (Executor.untilFirstFailure (freshJob requestFailing).Executor
                (freshJob requestFailing).Request.EpilogueAlwaysCommands
                ((freshJob requestFailing).Executor.RunCommand
                  "export SEMAPHORE_JOB_RESULT=failed" false ""
                  ((freshJob requestFailing).Executor.RunCommand "false" false "second"
                    5).2).2).map Command.effect
          ++ (Executor.untilFirstFailure (freshJob requestFailing).Executor
                (freshJob requestFailing).Request.EpilogueOnFailCommands
                (Executor.worldAfter (freshJob requestFailing).Executor
                  (freshJob requestFailing).Request.EpilogueAlwaysCommands
                  ((freshJob requestFailing).Executor.RunCommand
                    "export SEMAPHORE_JOB_RESULT=failed" false ""
                    ((freshJob requestFailing).Executor.RunCommand "false" false "second"
                      5).2).2)).map Command.effect
          ++ [Effect.callback (freshJob requestFailing).Request.Callbacks.Finished
                "\x7b\"result\": \"failed\"\x7d",
              Effect.logJobFinished "failed"]
          ++ List.replicate n (Effect.sleep 1000)
          ++ (if (Job.Run 0 ⟨freshJob requestFailing, 0, []⟩ none).2 then
                [Effect.loggerClose,
                 Effect.callback (freshJob requestFailing).Request.Callbacks.TeardownFinished
                   "\x7b\x7d"]
                ++ (if (none : Option (Nat → Nat)).isSome then [Effect.finishedCallback] else [])
              else []))
    ∧ (Job.Run 0 ⟨freshJob requestFailing, 0, []⟩ none).1.trace =
        [Effect.logJobStarted, Effect.prepare, Effect.start,
          Effect.exportEnvVars [⟨"A", "1"⟩], Effect.injectFiles [],
          Effect.runCommand "echo ok" false "first",
          Effect.runCommand "false" false "second",
          Effect.runCommand "export SEMAPHORE_JOB_RESULT=failed" false "",
          Effect.runCommand "echo always" false "always",
          Effect.runCommand "echo fail" false "on fail",
          Effect.callback "https://hub.example/finished" "\x7b\"result\": \"failed\"\x7d",
          Effect.logJobFinished "failed",
          Effect.loggerClose,
          Effect.callback "https://hub.example/teardown" "\x7b\x7d"]
    ∧ Executor.untilFirstFailure tiringExecutor
        [Command.mk "echo a" "a", Command.mk "echo b" "b", Command.mk "echo c" "c"] 4
        = [Command.mk "echo a" "a", Command.mk "echo b" "b", Command.mk "echo c" "c"].take 3
    ∧ Executor.untilFirstFailure tiringExecutor
        [Command.mk "echo a" "a", Command.mk "echo b" "b", Command.mk "echo c" "c"] 5
        = [Command.mk "echo a" "a", Command.mk "echo b" "b"] :=
  ⟨(C7_first_failure_ends_regular_commands 0 (freshJob requestFailing) 0 1 2 3 4 5 none
    [Command.mk "echo ok" "first"] [Command.mk "echo never" "third"] (Command.mk "false" "second")
    rfl rfl rfl rfl rfl rfl rfl rfl (by decide)).1, by decide, by decide, by decide⟩

/-- C8: let the job have at least one regular command, let prepare, start,
env-var export and file injection return 0, let every regular command exit
0 and let the job not be stopped (flag clear, gate free).  Then, whatever the
result-export and epilogue commands return, `Run` sends the finished callback
with payload `{"result": "passed"}`; it is the first callback sent, and the
only other one is the teardown-finished callback, sent once the archival
wait has ended. -/
theorem C8_all_pass_reports_passed (fuel : Nat) (job : Job σ)
    (world w1 w2 w3 w4 w5 : σ) (finishedCallback : Option (σ → σ))
    (hstopped : job.Stopped = false)
    (hgate : job.TeardownLock.locked = false)
    (hprepare : job.Executor.Prepare world = (0, w1))
    (hstart : job.Executor.Start w1 = (0, w2))
    (hexport : job.Executor.ExportEnvVars job.Request.EnvVars w2 = (0, w3))
    (hinject : job.Executor.InjectFiles job.Request.Files w3 = (0, w4))
    (hcommands : job.Request.Commands ≠ [])
    (hpass : Executor.passAll job.Executor job.Request.Commands w4 = some w5) :
    Effect.callback job.Request.Callbacks.Finished "\x7b\"result\": \"passed\"\x7d"
      ∈ (Job.Run fuel ⟨job, world, []⟩ finishedCallback).1.trace
    ∧ (Job.Run fuel ⟨job, world, []⟩ finishedCallback).1.trace.filter Effect.isCallback
        = Effect.callback job.Request.Callbacks.Finished "\x7b\"result\": \"passed\"\x7d"
          :: (if (Job.Run fuel ⟨job, world, []⟩ finishedCallback).2 then
                [Effect.callback job.Request.Callbacks.TeardownFinished "\x7b\x7d"]
              else []) := by
  have hboot := boot_ok job world w1 w2 [Effect.logJobStarted] hprepare hstart
  have hloop := commandLoop_all_pass job hstopped job.Request.Commands 1 w4 w5
    ([Effect.logJobStarted, Effect.prepare, Effect.start] ++
      ([Effect.exportEnvVars job.Request.EnvVars] ++ [Effect.injectFiles job.Request.Files])) hpass
  have hregular : Job.RunRegularCommands
        ⟨job, w2, [Effect.logJobStarted, Effect.prepare, Effect.start]⟩
      = (JOB_PASSED, ⟨job, w5,
          [Effect.logJobStarted, Effect.prepare, Effect.start,
            Effect.exportEnvVars job.Request.EnvVars, Effect.injectFiles job.Request.Files]
            ++ job.Request.Commands.map Command.effect⟩) := by
    simp only [Job.RunRegularCommands, Proc.call, hexport, hinject, ne_eq, not_true_eq_false,
      if_false, Job.RunCommandsUntilFirstFailure, List.append_assoc]
    rw [hloop]
    simp [hcommands]
  obtain ⟨n, htrace⟩ := Run_after_boot fuel job world w2 finishedCallback
    hstopped hgate hboot JOB_PASSED _ _ hregular
  have hpayload : finishedPayload JOB_PASSED = "\x7b\"result\": \"passed\"\x7d" := by decide
  rw [hpayload] at htrace
  refine ⟨?_, ?_⟩
  · rw [htrace]
    simp
  · rw [htrace]
    simp only [List.filter_append, commands_no_callback, sleeps_no_callback, List.append_nil,
      List.nil_append]
    cases (Job.Run fuel ⟨job, world, []⟩ finishedCallback).2 <;>
      cases finishedCallback <;> simp [List.filter, Effect.isCallback]

/-- Witness for C8: the scenario of the spec, one command `echo ok` and one
epilogue-on-pass command. -/
theorem C8_witness :
    (Effect.callback (freshJob requestPassing).Request.Callbacks.Finished
        "\x7b\"result\": \"passed\"\x7d"
      ∈ (Job.Run 0 ⟨freshJob requestPassing, 0, []⟩ none).1.trace
    ∧ (Job.Run 0 ⟨freshJob requestPassing, 0, []⟩ none).1.trace.filter Effect.isCallback
        = Effect.callback (freshJob requestPassing).Request.Callbacks.Finished
            "\x7b\"result\": \"passed\"\x7d"
          :: (if (Job.Run 0 ⟨freshJob requestPassing, 0, []⟩ none).2 then
                [Effect.callback (freshJob requestPassing).Request.Callbacks.TeardownFinished
                  "\x7b\x7d"]
              else []))
    ∧ (Job.Run 0 ⟨freshJob requestPassing, 0, []⟩ none).1.trace =
        [Effect.logJobStarted, Effect.prepare, Effect.start,
          Effect.exportEnvVars [⟨"A", "1"⟩], Effect.injectFiles [],
          Effect.runCommand "echo ok" false "first",
          Effect.runCommand "export SEMAPHORE_JOB_RESULT=passed" false "",
          Effect.runCommand "echo done" false "done",
          Effect.callback "https://hub.example/finished" "\x7b\"result\": \"passed\"\x7d",
          Effect.logJobFinished "passed",
          Effect.loggerClose,
          Effect.callback "https://hub.example/teardown" "\x7b\x7d"] :=
  ⟨C8_all_pass_reports_passed 0 (freshJob requestPassing) 0 1 2 3 4 5 none
    rfl rfl rfl rfl rfl rfl (by decide) rfl, by decide⟩

end Agent.Jobs

/-! ## Theorems: admission -/

namespace Agent.Control

open Jobs

variable {σ : Type}

/-- C2: in any state other than `waiting for job` (in particular
`job-started`) the submit-job handler answers 422 with the message that a
job is already running, leaves the server as it was (`ActiveJob` and `State`
included) and starts no goroutine. -/
theorem C2_submit_rejected_unless_waiting
    (NewRequestFromJSON : String → Except String JobRequest)
    (CreateLogger : JobRequest → Except String Logger)
    (CreateExecutor : JobRequest → Logger → Except String (Executor σ))
    (s : Server σ) (r : HttpRequest) (hstate : s.State ≠ "waiting for job") :
    (Server.Run NewRequestFromJSON CreateLogger CreateExecutor s ResponseWriter.fresh r).w.statusCode
      = 422
    ∧ (Server.Run NewRequestFromJSON CreateLogger CreateExecutor s ResponseWriter.fresh r).w.body
      = "\x7b\"message\": \"a job is already running\"\x7d"
    ∧ (Server.Run NewRequestFromJSON CreateLogger CreateExecutor s ResponseWriter.fresh r).server = s
    ∧ (Server.Run NewRequestFromJSON CreateLogger CreateExecutor s
        ResponseWriter.fresh r).server.ActiveJob = s.ActiveJob
    ∧ (Server.Run NewRequestFromJSON CreateLogger CreateExecutor s
        ResponseWriter.fresh r).server.State = s.State
    ∧ (Server.Run NewRequestFromJSON CreateLogger CreateExecutor s ResponseWriter.fresh r).spawned
      = [] := by
  have hrun : Server.Run NewRequestFromJSON CreateLogger CreateExecutor s ResponseWriter.fresh r
      = { server := s
          w := (ResponseWriter.fresh.WriteHeader 422).Write
            "\x7b\"message\": \"a job is already running\"\x7d"
          spawned := [] } := by
    simp only [Server.Run, hstate, ne_eq, not_false_eq_true, if_true]
  rw [hrun]
  refine ⟨rfl, ?_, rfl, rfl, rfl, rfl⟩
  simp [ResponseWriter.Write, ResponseWriter.WriteHeader, ResponseWriter.fresh]

/-- Witness for C2: a second submission while the state is `job-started`. -/
theorem C2_witness :
    (Server.Run parseExample (fun q => Except.ok ⟨q.Logger.Method⟩)
        (fun _ _ => Except.ok countingExecutor) busyServer ResponseWriter.fresh
        submitRequest).w.statusCode = 422
    ∧ (Server.Run parseExample (fun q => Except.ok ⟨q.Logger.Method⟩)
        (fun _ _ => Except.ok countingExecutor) busyServer ResponseWriter.fresh
        submitRequest).w.body = "\x7b\"message\": \"a job is already running\"\x7d"
    ∧ (Server.Run parseExample (fun q => Except.ok ⟨q.Logger.Method⟩)
        (fun _ _ => Except.ok countingExecutor) busyServer ResponseWriter.fresh
        submitRequest).server = busyServer
    ∧ (Server.Run parseExample (fun q => Except.ok ⟨q.Logger.Method⟩)
        (fun _ _ => Except.ok countingExecutor) busyServer ResponseWriter.fresh
        submitRequest).server.ActiveJob = busyServer.ActiveJob
    ∧ (Server.Run parseExample (fun q => Except.ok ⟨q.Logger.Method⟩)
        (fun _ _ => Except.ok countingExecutor) busyServer ResponseWriter.fresh
        submitRequest).server.State = "job-started"
    ∧ (Server.Run parseExample (fun q => Except.ok ⟨q.Logger.Method⟩)
        (fun _ _ => Except.ok countingExecutor) busyServer ResponseWriter.fresh
        submitRequest).spawned = [] :=
  C2_submit_rejected_unless_waiting parseExample (fun q => Except.ok ⟨q.Logger.Method⟩)
    (fun _ _ => Except.ok countingExecutor) busyServer submitRequest (by decide)

end Agent.Control

/-! ## Theorems: construction and conservation of events -/

namespace Agent.Eventlogger

variable {σ α : Type}

/-- A backend `NewHttpBackend` returns starts with an empty buffer. -/
lemma fresh_buffer (client : σ → Request → Outcome × σ) (url token : String)
    (bufferSize : Int) (l : HttpBackend σ α)
    (hnew : NewHttpBackend client url token bufferSize = Except.ok l) : l.buffer = [] := by
  by_cases h : bufferSize ≤ 0
  · simp [NewHttpBackend, h] at hnew
  · simp only [NewHttpBackend, h, if_false, Except.ok.injEq] at hnew
    subst hnew
    rfl

/-- C11: `NewHttpBackend` returns an error, and no backend, exactly when
`bufferSize <= 0`; when it succeeds the backend has an empty buffer,
`startFrom = 0`, the given `bufferSize`, and the given url, token and
client. -/
theorem C11_construction_needs_positive_bufferSize (client : σ → Request → Outcome × σ)
    (url token : String) (bufferSize : Int) :
    ((∃ e, (NewHttpBackend client url token bufferSize : Except Error (HttpBackend σ α))
        = Except.error e) ↔ bufferSize ≤ 0)
    ∧ ((∀ l : HttpBackend σ α, NewHttpBackend client url token bufferSize ≠ Except.ok l)
        ↔ bufferSize ≤ 0)
    ∧ ∀ l : HttpBackend σ α, NewHttpBackend client url token bufferSize = Except.ok l →
        l.buffer = [] ∧ l.startFrom = 0 ∧ l.bufferSize = bufferSize
        ∧ l.url = url ∧ l.token = token ∧ l.client = client := by
  by_cases h : bufferSize ≤ 0
  · refine ⟨⟨fun _ => h, fun _ => ⟨Error.invalidBufferSize, by simp [NewHttpBackend, h]⟩⟩,
      ⟨fun _ => h, fun _ l => by simp [NewHttpBackend, h]⟩, ?_⟩
    intro l hl
    simp [NewHttpBackend, h] at hl
  · refine ⟨⟨?_, fun h0 => absurd h0 h⟩, ⟨?_, fun h0 => absurd h0 h⟩, ?_⟩
    · rintro ⟨e, he⟩
      simp [NewHttpBackend, h] at he
    · intro hall
      exact absurd (by simp [NewHttpBackend, h]) (hall ⟨client, url, token, [], bufferSize, 0⟩)
    · intro l hl
      simp only [NewHttpBackend, h, if_false, Except.ok.injEq] at hl
      subst hl
      exact ⟨rfl, rfl, rfl, rfl, rfl, rfl⟩

lemma ackedEvents_append_singleton (sent : List Exchange) (x : Exchange) :
    ackedEvents (sent ++ [x])
      = ackedEvents sent ++ (if x.acked then x.request.events else []) := by
  by_cases hx : x.acked = true <;> simp [ackedEvents, List.filter_append, hx]

/-- Conservation of events from any state: what has been acknowledged plus
what is buffered grows by exactly the events written. -/
lemma run_conserves (marshal : α → String) (s : State σ α) (ops : List (Op α)) :
    ackedEvents (HttpBackend.run marshal s ops).sent
        ++ (HttpBackend.run marshal s ops).backend.buffer.map marshal
      = ackedEvents s.sent ++ (s.backend.buffer ++ written ops).map marshal := by
  induction ops using List.reverseRecOn with
  | nil => simp [HttpBackend.run, written]
  | append_singleton ops op ih =>
    rw [run_append, written_append]
    obtain ⟨req, hreq, ⟨e, h⟩ | ⟨o, w, ho, h⟩ | ⟨o, w, n, ho, h⟩⟩ :=
      step_spec marshal (HttpBackend.run marshal s ops) op
    · rw [h]
      simp only [List.map_append] at ih ⊢
      rw [← List.append_assoc, ih]
      simp only [List.append_assoc]
    · rw [h]
      have hx : Exchange.acked ⟨req, o⟩ = false := by
        cases hoe : o.err with
        | none => exact absurd hoe ho
        | some e => simp [Exchange.acked, hoe]
      simp only [ackedEvents_append_singleton, hx, Bool.false_eq_true, if_false, List.append_nil]
      simp only [List.map_append] at ih ⊢
      rw [← List.append_assoc, ih]
      simp only [List.append_assoc]
    · rw [h]
      have hx : Exchange.acked ⟨req, o⟩ = true := by simp [Exchange.acked, ho]
      simp only [ackedEvents_append_singleton, hx, if_true, List.map_nil, List.append_nil]
      have hev : req.events
          = ((HttpBackend.run marshal s ops).backend.buffer ++ written [op]).map marshal := by
        rw [hreq]
        rfl
      rw [hev]
      simp only [List.map_append] at ih ⊢
      rw [← List.append_assoc, ih]
      simp only [List.append_assoc]

/-- C18: on a backend created by `NewHttpBackend`, after any sequence of `Write`
and `Close` operations, whatever the outcome of each flush, the events of the
acknowledged flushes in delivery order followed by the events in the buffer
are exactly the events written so far, in write order (as marshalled for the
wire).  The statement holds for every sequence, hence after every
operation. -/
theorem C18_no_event_lost_or_duplicated (marshal : α → String)
    (client : σ → Request → Outcome × σ) (url token : String) (bufferSize : Int)
    (l0 : HttpBackend σ α) (hnew : NewHttpBackend client url token bufferSize = Except.ok l0)
    (w0 : σ) (ops : List (Op α)) :
    ackedEvents (HttpBackend.run marshal ⟨l0, w0, []⟩ ops).sent
        ++ (HttpBackend.run marshal ⟨l0, w0, []⟩ ops).backend.buffer.map marshal
      = (written ops).map marshal := by
  have hl := fresh_buffer client url token bufferSize l0 hnew
  have h := run_conserves marshal ⟨l0, w0, []⟩ ops
  rw [h]
  simp [ackedEvents, hl]

/-- Witness for C18: threshold 2; the flush of `Write e1` gets 500, the flush
of `Close` fails in transport, the flush of `Write e2` is acknowledged and
carries `e0, e1, e2`; `e3` stays buffered. -/
theorem C18_witness :
    (ackedEvents (HttpBackend.run id
          ⟨backendScriptedFresh, [Outcome.status 500, Outcome.failure], []⟩
          [Op.write "e0", Op.write "e1", Op.close, Op.write "e2", Op.write "e3"]).sent
        ++ (HttpBackend.run id
          ⟨backendScriptedFresh, [Outcome.status 500, Outcome.failure], []⟩
          [Op.write "e0", Op.write "e1", Op.close, Op.write "e2", Op.write "e3"]).backend.buffer.map
            id
      = (written [Op.write "e0", Op.write "e1", Op.close, Op.write "e2", Op.write "e3"]).map id)
    ∧ ackedEvents (HttpBackend.run id
          ⟨backendScriptedFresh, [Outcome.status 500, Outcome.failure], []⟩
          [Op.write "e0", Op.write "e1", Op.close, Op.write "e2", Op.write "e3"]).sent
        = ["e0", "e1", "e2"]
    ∧ (HttpBackend.run id
          ⟨backendScriptedFresh, [Outcome.status 500, Outcome.failure], []⟩
          [Op.write "e0", Op.write "e1", Op.close, Op.write "e2", Op.write "e3"]).backend.buffer
        = ["e3"]
    ∧ (HttpBackend.run id
          ⟨backendScriptedFresh, [Outcome.status 500, Outcome.failure], []⟩
          [Op.write "e0", Op.write "e1", Op.close, Op.write "e2", Op.write "e3"]).sent.map
            (fun x => x.outcome)
        = [Outcome.status 500, Outcome.failure, Outcome.status 200] :=
  ⟨C18_no_event_lost_or_duplicated id sinkScript "https://logs.example" "secret" 2
    backendScriptedFresh rfl [Outcome.status 500, Outcome.failure]
    [Op.write "e0", Op.write "e1", Op.close, Op.write "e2", Op.write "e3"],
    by decide, by decide, by decide⟩

end Agent.Eventlogger

/-! ## Theorems: boot failure, command order, result and epilogues, Finished -/

namespace Agent.Jobs

variable {σ : Type}

/-- `Run` is its part before the teardown, then `Teardown` with the result
that part yields, then the marking of `Finished` and the caller's callback. -/
lemma Run_eq_beforeTeardown (fuel : Nat) (p : Proc σ) (finishedCallback : Option (σ → σ)) :
    Job.Run fuel p finishedCallback
      = (if !(Job.Teardown fuel (Job.beforeTeardown p).2 (Job.beforeTeardown p).1).2 then
          ((Job.Teardown fuel (Job.beforeTeardown p).2 (Job.beforeTeardown p).1).1, false)
        else
          match finishedCallback with
          | some f =>
            ({ job := { (Job.Teardown fuel (Job.beforeTeardown p).2
                  (Job.beforeTeardown p).1).1.job with Finished := true }
               world := f (Job.Teardown fuel (Job.beforeTeardown p).2
                  (Job.beforeTeardown p).1).1.world
               trace := (Job.Teardown fuel (Job.beforeTeardown p).2
                  (Job.beforeTeardown p).1).1.trace ++ [Effect.finishedCallback] }, true)
          | none =>
            ({ (Job.Teardown fuel (Job.beforeTeardown p).2 (Job.beforeTeardown p).1).1 with
               job := { (Job.Teardown fuel (Job.beforeTeardown p).2
                  (Job.beforeTeardown p).1).1.job with Finished := true } }, true)) := by
  unfold Job.Run Job.beforeTeardown
  by_cases h : (Job.PrepareEnvironment (p.emit Effect.logJobStarted)).1 = 0
  · simp only [h, decide_True, if_true]
  · simp only [h, decide_False, Bool.false_eq_true, if_false]

/-- What `Run` leaves, read off the teardown it performs. -/
lemma Run_of_teardown (fuel : Nat) (p : Proc σ) (finishedCallback : Option (σ → σ)) :
    (Job.Run fuel p finishedCallback).2
        = (Job.Teardown fuel (Job.beforeTeardown p).2 (Job.beforeTeardown p).1).2
    ∧ (Job.Run fuel p finishedCallback).1.trace
        = (Job.Teardown fuel (Job.beforeTeardown p).2 (Job.beforeTeardown p).1).1.trace
          ++ (if (Job.Run fuel p finishedCallback).2 && finishedCallback.isSome
              then [Effect.finishedCallback] else [])
    ∧ (Job.Run fuel p finishedCallback).1.job.Finished
        = ((Job.Run fuel p finishedCallback).2
            || (Job.Teardown fuel (Job.beforeTeardown p).2
                (Job.beforeTeardown p).1).1.job.Finished) := by
  rw [Run_eq_beforeTeardown]
  cases (Job.Teardown fuel (Job.beforeTeardown p).2 (Job.beforeTeardown p).1).2 <;>
    cases finishedCallback <;> simp

/-- The command loop never touches the job and adds to the trace only calls
of `RunCommand`, for an initial part of the sequence. -/
lemma commandLoop_shape (job : Job σ) :
    ∀ (cmds : List Command) (last : Int) (w : σ) (tr : List Effect),
      ∃ (k : Nat) (w1 : σ),
        (Job.commandLoop cmds last ⟨job, w, tr⟩).2
          = ⟨job, w1, tr ++ (cmds.take k).map Command.effect⟩ := by
  intro cmds
  induction cmds with
  | nil =>
    intro last w tr
    exact ⟨0, w, by simp [Job.commandLoop]⟩
  | cons a cmds ih =>
    intro last w tr
    by_cases hs : job.Stopped = true
    · exact ⟨0, w, by simp [Job.commandLoop, hs]⟩
    · by_cases ha : (job.Executor.RunCommand a.Directive false a.Alias w).1 = 0
      · obtain ⟨k, w1, hk⟩ := ih (job.Executor.RunCommand a.Directive false a.Alias w).1
          (job.Executor.RunCommand a.Directive false a.Alias w).2
          (tr ++ [Command.effect a])
        refine ⟨k + 1, w1, ?_⟩
        simp only [Job.commandLoop, hs, Proc.call, ha, ne_eq, not_true_eq_false,
          Bool.false_eq_true, if_false]
        simp only [Command.effect] at hk ⊢
        rw [ha] at hk
        rw [hk]
        simp [Command.effect]
      · exact ⟨1, (job.Executor.RunCommand a.Directive false a.Alias w).2,
          by simp [Job.commandLoop, hs, Proc.call, ha, Command.effect]⟩

/-- `PrepareEnvironment` in full. -/
lemma PrepareEnvironment_eq (job : Job σ) (w : σ) (tr : List Effect) :
    Job.PrepareEnvironment ⟨job, w, tr⟩
      = if (job.Executor.Prepare w).1 ≠ 0 then
          ((job.Executor.Prepare w).1, ⟨job, (job.Executor.Prepare w).2, tr ++ [Effect.prepare]⟩)
        else if (job.Executor.Start (job.Executor.Prepare w).2).1 ≠ 0 then
          ((job.Executor.Start (job.Executor.Prepare w).2).1,
            ⟨job, (job.Executor.Start (job.Executor.Prepare w).2).2,
              tr ++ [Effect.prepare, Effect.start]⟩)
        else
          (0, ⟨job, (job.Executor.Start (job.Executor.Prepare w).2).2,
              tr ++ [Effect.prepare, Effect.start]⟩) := by
  simp only [Job.PrepareEnvironment, Proc.call]
  by_cases h1 : (job.Executor.Prepare w).1 = 0
  · by_cases h2 : (job.Executor.Start (job.Executor.Prepare w).2).1 = 0 <;> simp [h1, h2]
  · simp [h1]

/-- `RunRegularCommands` never touches the job and sends no callback. -/
lemma RunRegularCommands_shape (job : Job σ) (w : σ) (tr : List Effect) :
    ∃ (w1 : σ) (t : List Effect),
      (Job.RunRegularCommands ⟨job, w, tr⟩).2 = ⟨job, w1, tr ++ t⟩
      ∧ t.filter Effect.isCallback = [] := by
  by_cases h3 : (job.Executor.ExportEnvVars job.Request.EnvVars w).1 = 0
  · by_cases h4 : (job.Executor.InjectFiles job.Request.Files
        (job.Executor.ExportEnvVars job.Request.EnvVars w).2).1 = 0
    · obtain ⟨k, w1, hk⟩ := commandLoop_shape job job.Request.Commands 1
        (job.Executor.InjectFiles job.Request.Files
          (job.Executor.ExportEnvVars job.Request.EnvVars w).2).2
        (tr ++ [Effect.exportEnvVars job.Request.EnvVars] ++
          [Effect.injectFiles job.Request.Files])
      refine ⟨w1, [Effect.exportEnvVars job.Request.EnvVars,
        Effect.injectFiles job.Request.Files]
        ++ (job.Request.Commands.take k).map Command.effect, ?_, ?_⟩
      · simp only [Job.RunRegularCommands, Proc.call, h3, h4, ne_eq, not_true_eq_false,
          if_false, Job.RunCommandsUntilFirstFailure]
        split <;> rw [hk] <;> simp
      · rw [List.filter_append, commands_no_callback, List.append_nil]
        rfl
    · exact ⟨(job.Executor.InjectFiles job.Request.Files
          (job.Executor.ExportEnvVars job.Request.EnvVars w).2).2,
        [Effect.exportEnvVars job.Request.EnvVars, Effect.injectFiles job.Request.Files],
        by simp [Job.RunRegularCommands, Proc.call, h3, h4], by simp [Effect.isCallback]⟩
  · exact ⟨(job.Executor.ExportEnvVars job.Request.EnvVars w).2,
      [Effect.exportEnvVars job.Request.EnvVars],
      by simp [Job.RunRegularCommands, Proc.call, h3], by simp [Effect.isCallback]⟩

/-- The command loop adds to the trace calls of `RunCommand` for an initial
part of the sequence, which is not empty when the job is not stopped and
there is a command. -/
lemma commandLoop_initial (job : Job σ) (cmds : List Command) (last : Int) (w : σ)
    (tr : List Effect) :
    ∃ (k : Nat) (w1 : σ), (job.Stopped = false → cmds ≠ [] → 0 < k) ∧
      (Job.commandLoop cmds last ⟨job, w, tr⟩).2
        = ⟨job, w1, tr ++ (cmds.take k).map Command.effect⟩ := by
  by_cases hs : job.Stopped = false
  · obtain ⟨k, w1, hk, h⟩ := commandLoop_runs_initial job hs cmds last w tr
    exact ⟨k, w1, fun _ => hk, h⟩
  · obtain ⟨k, w1, h⟩ := commandLoop_shape job cmds last w tr
    exact ⟨k, w1, fun h0 => absurd h0 hs, h⟩

/-- The part of `Run` before the teardown when the executor has booted:
regular commands, result export, epilogue-always, then the epilogue chosen by
the result; the job itself is untouched and no callback is sent. -/
lemma beforeTeardown_booted (job : Job σ) (w w2 : σ) (tr2 : List Effect)
    (hboot : Job.PrepareEnvironment ⟨job, w, [Effect.logJobStarted]⟩ = (0, ⟨job, w2, tr2⟩)) :
    ∃ (w1 w5 : σ) (t1 : List Effect) (k1 ka kr : Nat),
      (Job.RunRegularCommands ⟨job, w2, tr2⟩).2 = ⟨job, w1, tr2 ++ t1⟩
      ∧ t1.filter Effect.isCallback = []
      ∧ (job.Stopped = false → k1 = 1)
      ∧ (job.Stopped = false → job.Request.EpilogueAlwaysCommands ≠ [] → 0 < ka)
      ∧ (job.Stopped = false →
          (if (Job.RunRegularCommands ⟨job, w2, tr2⟩).1 = JOB_PASSED
            then job.Request.EpilogueOnPassCommands
            else job.Request.EpilogueOnFailCommands) ≠ [] → 0 < kr)
      ∧ Job.beforeTeardown ⟨job, w, []⟩
        = ((Job.RunRegularCommands ⟨job, w2, tr2⟩).1,
            ⟨job, w5, tr2 ++ t1
              ++ (([{ Directive := "export SEMAPHORE_JOB_RESULT="
                        ++ (Job.RunRegularCommands ⟨job, w2, tr2⟩).1, Alias := "" }] :
                    List Command).take k1).map Command.effect
              ++ (job.Request.EpilogueAlwaysCommands.take ka).map Command.effect
              ++ ((if (Job.RunRegularCommands ⟨job, w2, tr2⟩).1 = JOB_PASSED
                    then job.Request.EpilogueOnPassCommands
                    else job.Request.EpilogueOnFailCommands).take kr).map Command.effect⟩) := by
  obtain ⟨w1, t1, hreg, ht1⟩ := RunRegularCommands_shape job w2 tr2
  generalize hres : (Job.RunRegularCommands ⟨job, w2, tr2⟩).1 = result at *
  obtain ⟨k1, w3, hk1, h1⟩ := commandLoop_initial job
    [{ Directive := "export SEMAPHORE_JOB_RESULT=" ++ result, Alias := "" }] 1 w1 (tr2 ++ t1)
  obtain ⟨ka, w4, hka, h2⟩ := commandLoop_initial job job.Request.EpilogueAlwaysCommands 1 w3
    (tr2 ++ t1 ++ (([{ Directive := "export SEMAPHORE_JOB_RESULT=" ++ result, Alias := "" }] :
      List Command).take k1).map Command.effect)
  obtain ⟨kr, w5, hkr, h3⟩ := commandLoop_initial job
    (if result = JOB_PASSED then job.Request.EpilogueOnPassCommands
      else job.Request.EpilogueOnFailCommands) 1 w4
    (tr2 ++ t1 ++ (([{ Directive := "export SEMAPHORE_JOB_RESULT=" ++ result, Alias := "" }] :
      List Command).take k1).map Command.effect
      ++ (job.Request.EpilogueAlwaysCommands.take ka).map Command.effect)
  have hk1one : job.Stopped = false → k1 = 1 ∨ 1 < k1 := by
    intro hs
    have := hk1 hs (by simp)
    omega
  refine ⟨w1, w5, t1, min k1 1, ka, kr, hreg, ht1, ?_, hka, hkr, ?_⟩
  · intro hs
    rcases hk1one hs with h | h <;> omega
  · have htake : ([{ Directive := "export SEMAPHORE_JOB_RESULT=" ++ result, Alias := "" }] :
        List Command).take (min k1 1)
        = ([{ Directive := "export SEMAPHORE_JOB_RESULT=" ++ result, Alias := "" }] :
        List Command).take k1 := by
      cases k1 with
      | zero => rfl
      | succ n => simp
    rw [htake]
    simp only [Job.beforeTeardown, Proc.emit, List.nil_append, hboot, decide_True, if_true,
      hres, Job.RunCommandsUntilFirstFailure, hreg]
    rw [h1]
    by_cases hp : result = JOB_PASSED
    · simp only [hp, if_true] at h2 h3 ⊢
      rw [h2, h3]
    · simp only [hp, if_false] at h2 h3 ⊢
      rw [h2, h3]

/-- What `Run` does once its part before the teardown has ended with result
`failed` in a known state. -/
lemma Run_of_failed_boot (fuel : Nat) (job : Job σ) (world w : σ) (tr : List Effect)
    (finishedCallback : Option (σ → σ))
    (hbt : Job.beforeTeardown ⟨job, world, []⟩ = ("failed", ⟨job, w, tr⟩)) :
    (Job.Run fuel ⟨job, world, []⟩ finishedCallback).2
        = (Job.Teardown fuel ⟨job, w, tr⟩ "failed").2
    ∧ (Job.Run fuel ⟨job, world, []⟩ finishedCallback).1.trace
        = (Job.Teardown fuel ⟨job, w, tr⟩ "failed").1.trace
          ++ (if (Job.Run fuel ⟨job, world, []⟩ finishedCallback).2 && finishedCallback.isSome
              then [Effect.finishedCallback] else [])
    ∧ (job.TeardownLock.locked = false → ∃ n : Nat,
        (Job.Run fuel ⟨job, world, []⟩ finishedCallback).1.trace
          = tr ++ [Effect.callback job.Request.Callbacks.Finished
                    "\x7b\"result\": \"failed\"\x7d",
                   Effect.logJobFinished "failed"]
              ++ List.replicate n (Effect.sleep 1000)
              ++ (if (Job.Run fuel ⟨job, world, []⟩ finishedCallback).2 then
                    [Effect.loggerClose,
                     Effect.callback job.Request.Callbacks.TeardownFinished "\x7b\x7d"]
                    ++ (if finishedCallback.isSome then [Effect.finishedCallback] else [])
                  else [])) := by
  obtain ⟨h2, htr, -⟩ := Run_of_teardown fuel ⟨job, world, []⟩ finishedCallback
  rw [hbt] at h2 htr
  refine ⟨h2, htr, ?_⟩
  intro hgate
  obtain ⟨n, ret, ht⟩ := Teardown_gate_free fuel ⟨job, w, tr⟩ "failed" hgate
  have hpayload : finishedPayload "failed" = "\x7b\"result\": \"failed\"\x7d" := by decide
  rw [hpayload] at ht
  refine ⟨n, ?_⟩
  rw [htr, h2, ht]
  cases ret <;> cases finishedCallback <;> simp

/-- C13: if `Executor.Prepare` returns nonzero, or `Prepare` returns 0 and
`Executor.Start` returns nonzero, then before the teardown `Run` performs
only the job-started event and `Prepare` (and `Start` in the second case):
no env-var export, no file injection, no regular, result-export or epilogue
command.  It then calls `Teardown` with result `failed`; when the teardown
gate is free, the finished callback therefore carries
`{"result": "failed"}`. -/
theorem C13_boot_failure_goes_to_teardown (fuel : Nat) (job : Job σ) (world : σ)
    (finishedCallback : Option (σ → σ))
    (hboot : (job.Executor.Prepare world).1 ≠ 0
      ∨ ((job.Executor.Prepare world).1 = 0
          ∧ (job.Executor.Start (job.Executor.Prepare world).2).1 ≠ 0)) :
    ∃ (w : σ) (tr : List Effect),
      (tr = [Effect.logJobStarted, Effect.prepare]
        ∨ tr = [Effect.logJobStarted, Effect.prepare, Effect.start])
      ∧ Job.beforeTeardown ⟨job, world, []⟩ = ("failed", ⟨job, w, tr⟩)
      ∧ (Job.Run fuel ⟨job, world, []⟩ finishedCallback).2
          = (Job.Teardown fuel ⟨job, w, tr⟩ "failed").2
      ∧ (Job.Run fuel ⟨job, world, []⟩ finishedCallback).1.trace
          = (Job.Teardown fuel ⟨job, w, tr⟩ "failed").1.trace
            ++ (if (Job.Run fuel ⟨job, world, []⟩ finishedCallback).2 && finishedCallback.isSome
                then [Effect.finishedCallback] else [])
      ∧ (job.TeardownLock.locked = false → ∃ n : Nat,
          (Job.Run fuel ⟨job, world, []⟩ finishedCallback).1.trace
            = tr ++ [Effect.callback job.Request.Callbacks.Finished
                      "\x7b\"result\": \"failed\"\x7d",
                     Effect.logJobFinished "failed"]
                ++ List.replicate n (Effect.sleep 1000)
                ++ (if (Job.Run fuel ⟨job, world, []⟩ finishedCallback).2 then
                      [Effect.loggerClose,
                       Effect.callback job.Request.Callbacks.TeardownFinished "\x7b\x7d"]
                      ++ (if finishedCallback.isSome then [Effect.finishedCallback] else [])
                    else [])) := by
  rcases hboot with h1 | ⟨h1, h2⟩
  · have hbt : Job.beforeTeardown ⟨job, world, []⟩
        = ("failed", ⟨job, (job.Executor.Prepare world).2,
            [Effect.logJobStarted, Effect.prepare]⟩) := by
      simp [Job.beforeTeardown, Proc.emit, PrepareEnvironment_eq, h1, JOB_FAILED]
    exact ⟨_, _, Or.inl rfl, hbt, Run_of_failed_boot fuel job world _ _ finishedCallback hbt⟩
  · have hbt : Job.beforeTeardown ⟨job, world, []⟩
        = ("failed", ⟨job, (job.Executor.Start (job.Executor.Prepare world).2).2,
            [Effect.logJobStarted, Effect.prepare, Effect.start]⟩) := by
      simp [Job.beforeTeardown, Proc.emit, PrepareEnvironment_eq, h1, h2, JOB_FAILED]
    exact ⟨_, _, Or.inr rfl, hbt, Run_of_failed_boot fuel job world _ _ finishedCallback hbt⟩

/-- Witness for C13: `Prepare` exits 0 and `Start` exits 125. -/
theorem C13_witness :
    (∃ (w : Nat) (tr : List Effect),
      (tr = [Effect.logJobStarted, Effect.prepare]
        ∨ tr = [Effect.logJobStarted, Effect.prepare, Effect.start])
      ∧ Job.beforeTeardown
          ⟨{ freshJob requestFailing with Executor := notStartingExecutor }, 0, []⟩
          = ("failed", ⟨{ freshJob requestFailing with Executor := notStartingExecutor }, w, tr⟩)
      ∧ (Job.Run 0 ⟨{ freshJob requestFailing with Executor := notStartingExecutor }, 0, []⟩
            none).2
          = (Job.Teardown 0
              ⟨{ freshJob requestFailing with Executor := notStartingExecutor }, w, tr⟩
              "failed").2
      ∧ (Job.Run 0 ⟨{ freshJob requestFailing with Executor := notStartingExecutor }, 0, []⟩
            none).1.trace
          = (Job.Teardown 0
              ⟨{ freshJob requestFailing with Executor := notStartingExecutor }, w, tr⟩
              "failed").1.trace
            ++ (if (Job.Run 0
                  ⟨{ freshJob requestFailing with Executor := notStartingExecutor }, 0, []⟩
                  none).2 && (none : Option (Nat → Nat)).isSome
                then [Effect.finishedCallback] else [])
      ∧ ((freshJob requestFailing).TeardownLock.locked = false → ∃ n : Nat,
          (Job.Run 0 ⟨{ freshJob requestFailing with Executor := notStartingExecutor }, 0, []⟩
              none).1.trace
            = tr ++ [Effect.callback (freshJob requestFailing).Request.Callbacks.Finished
                      "\x7b\"result\": \"failed\"\x7d",
                     Effect.logJobFinished "failed"]
                ++ List.replicate n (Effect.sleep 1000)
                ++ (if (Job.Run 0
                      ⟨{ freshJob requestFailing with Executor := notStartingExecutor }, 0, []⟩
                      none).2 then
                      [Effect.loggerClose,
                       Effect.callback (freshJob requestFailing).Request.Callbacks.TeardownFinished
                         "\x7b\x7d"]
                      ++ (if (none : Option (Nat → Nat)).isSome then [Effect.finishedCallback]
                          else [])
                    else [])))
    ∧ (Job.Run 0 ⟨{ freshJob requestFailing with Executor := notStartingExecutor }, 0, []⟩
          none).1.trace
        = [Effect.logJobStarted, Effect.prepare, Effect.start,
           Effect.callback "https://hub.example/finished" "\x7b\"result\": \"failed\"\x7d",
           Effect.logJobFinished "failed",
           Effect.loggerClose,
           Effect.callback "https://hub.example/teardown" "\x7b\x7d"] :=
  ⟨C13_boot_failure_goes_to_teardown 0
    { freshJob requestFailing with Executor := notStartingExecutor } 0 none
    (Or.inr ⟨rfl, by decide⟩), by decide⟩

/-- The exit code the command loop returns when the job is not stopped: the
last exit code observed, or the initial one if no command was run. -/
lemma commandLoop_code (job : Job σ) (hs : job.Stopped = false) :
    ∀ (cmds : List Command) (last : Int) (w : σ) (tr : List Effect),
      (Job.commandLoop cmds last ⟨job, w, tr⟩).1
        = (Executor.exitCodes job.Executor cmds w).getLast?.getD last := by
  intro cmds
  induction cmds with
  | nil => intro last w tr; simp [Job.commandLoop, Executor.exitCodes]
  | cons a cmds ih =>
    intro last w tr
    by_cases ha : (job.Executor.RunCommand a.Directive false a.Alias w).1 = 0
    · simp only [Job.commandLoop, hs, Proc.call, ha, ne_eq, not_true_eq_false,
        Bool.false_eq_true, if_false, Executor.exitCodes]
      rw [ih]
      simp [List.getLast?_cons]
    · simp [Job.commandLoop, hs, Proc.call, ha, Executor.exitCodes]

/-- C16: let the job not be stopped and the command sequence be non-empty.
Then there is a position `k` such that the commands before `k` all exit 0
(each run in the world its predecessors left), the command `c` at `k` exits
nonzero or is the last one, `RunCommandsUntilFirstFailure` hands exactly the
commands up to and including `c` to `Executor.RunCommand`, in sequence order,
each with its own directive and alias, and returns the exit code of `c`. -/
theorem C16_commands_in_order_until_first_failure (job : Job σ)
    (hstopped : job.Stopped = false) (cmds : List Command) (hne : cmds ≠ [])
    (w : σ) (tr : List Effect) :
    ∃ (k : Nat) (c : Command) (w1 : σ),
      cmds[k]? = some c
      ∧ Executor.passAll job.Executor (cmds.take k) w = some w1
      ∧ ((job.Executor.RunCommand c.Directive false c.Alias w1).1 ≠ 0 ∨ k + 1 = cmds.length)
      ∧ Job.RunCommandsUntilFirstFailure ⟨job, w, tr⟩ cmds
        = ((job.Executor.RunCommand c.Directive false c.Alias w1).1,
            ⟨job, (job.Executor.RunCommand c.Directive false c.Alias w1).2,
              tr ++ (cmds.take (k + 1)).map
                (fun x => Effect.runCommand x.Directive false x.Alias)⟩) := by
  have key : ∀ (cmds : List Command), cmds ≠ [] → ∀ (last : Int) (w : σ) (tr : List Effect),
      ∃ (k : Nat) (c : Command) (w1 : σ),
        cmds[k]? = some c
        ∧ Executor.passAll job.Executor (cmds.take k) w = some w1
        ∧ ((job.Executor.RunCommand c.Directive false c.Alias w1).1 ≠ 0 ∨ k + 1 = cmds.length)
        ∧ Job.commandLoop cmds last ⟨job, w, tr⟩
          = ((job.Executor.RunCommand c.Directive false c.Alias w1).1,
              ⟨job, (job.Executor.RunCommand c.Directive false c.Alias w1).2,
                tr ++ (cmds.take (k + 1)).map
                  (fun x => Effect.runCommand x.Directive false x.Alias)⟩) := by
    intro cmds
    induction cmds with
    | nil => intro h; exact absurd rfl h
    | cons a rest ih =>
      intro _ last w tr
      by_cases ha : (job.Executor.RunCommand a.Directive false a.Alias w).1 = 0
      · have hstep : Job.commandLoop (a :: rest) last ⟨job, w, tr⟩
            = Job.commandLoop rest (job.Executor.RunCommand a.Directive false a.Alias w).1
                ⟨job, (job.Executor.RunCommand a.Directive false a.Alias w).2,
                  tr ++ [Effect.runCommand a.Directive false a.Alias]⟩ := by
          rw [Job.commandLoop]
          simp [hstopped, Proc.call, ha]
        by_cases hrest : rest = []
        · subst hrest
          refine ⟨0, a, w, by simp, rfl, Or.inr rfl, ?_⟩
          rw [hstep]
          simp [Job.commandLoop, ha]
        · obtain ⟨k, c, w1, hk, hpass, hlast, hloop⟩ := ih hrest
            (job.Executor.RunCommand a.Directive false a.Alias w).1
            (job.Executor.RunCommand a.Directive false a.Alias w).2
            (tr ++ [Effect.runCommand a.Directive false a.Alias])
          refine ⟨k + 1, c, w1, by simpa using hk, ?_, ?_, ?_⟩
          · simp only [List.take_succ_cons, Executor.passAll, ha, if_true]
            exact hpass
          · rcases hlast with h | h
            · exact Or.inl h
            · exact Or.inr (by simp only [List.length_cons]; omega)
          · rw [hstep, hloop]
            simp
      · refine ⟨0, a, w, by simp, rfl, Or.inl ha, ?_⟩
        simp [Job.commandLoop, hstopped, Proc.call, ha]
  exact key cmds hne 1 w tr

/-- Witness for C16: the three regular commands of `requestFailing`; the
second one, `false`, is the first to fail. -/
theorem C16_witness :
    (∃ (k : Nat) (c : Command) (w1 : Nat),
      requestFailing.Commands[k]? = some c
      ∧ Executor.passAll (freshJob requestFailing).Executor (requestFailing.Commands.take k) 4
          = some w1
      ∧ (((freshJob requestFailing).Executor.RunCommand c.Directive false c.Alias w1).1 ≠ 0
          ∨ k + 1 = requestFailing.Commands.length)
      ∧ Job.RunCommandsUntilFirstFailure ⟨freshJob requestFailing, 4, []⟩ requestFailing.Commands
        = (((freshJob requestFailing).Executor.RunCommand c.Directive false c.Alias w1).1,
            ⟨freshJob requestFailing,
              ((freshJob requestFailing).Executor.RunCommand c.Directive false c.Alias w1).2,
              [] ++ (requestFailing.Commands.take (k + 1)).map
                (fun x => Effect.runCommand x.Directive false x.Alias)⟩))
    ∧ (Job.RunCommandsUntilFirstFailure ⟨freshJob requestFailing, 4, []⟩
          requestFailing.Commands).1 = 1
    ∧ (Job.RunCommandsUntilFirstFailure ⟨freshJob requestFailing, 4, []⟩
          requestFailing.Commands).2.trace
        = [Effect.runCommand "echo ok" false "first", Effect.runCommand "false" false "second"] :=
  ⟨C16_commands_in_order_until_first_failure (freshJob requestFailing) rfl
    requestFailing.Commands (by decide) 4 [], by decide, by decide⟩

/-- The part of `Run` before the teardown leaves the job as it was (flags
and gate included) and sends no callback. -/
lemma beforeTeardown_shape (job : Job σ) (world : σ) :
    ∃ (result : String) (w : σ) (t : List Effect),
      Job.beforeTeardown ⟨job, world, []⟩ = (result, ⟨job, w, t⟩)
      ∧ t.filter Effect.isCallback = [] := by
  by_cases h1 : (job.Executor.Prepare world).1 = 0
  · by_cases h2 : (job.Executor.Start (job.Executor.Prepare world).2).1 = 0
    · have hboot : Job.PrepareEnvironment ⟨job, world, [Effect.logJobStarted]⟩
          = (0, ⟨job, (job.Executor.Start (job.Executor.Prepare world).2).2,
              [Effect.logJobStarted, Effect.prepare, Effect.start]⟩) := by
        simp [PrepareEnvironment_eq, h1, h2]
      obtain ⟨w1, w5, t1, k1, ka, kr, -, ht1, -, -, -, hbt⟩ :=
        beforeTeardown_booted job world _ _ hboot
      refine ⟨_, _, _, hbt, ?_⟩
      simp only [List.filter_append, commands_no_callback, ht1, List.append_nil]
      rfl
    · exact ⟨JOB_FAILED, (job.Executor.Start (job.Executor.Prepare world).2).2,
        [Effect.logJobStarted, Effect.prepare, Effect.start],
        by simp [Job.beforeTeardown, Proc.emit, PrepareEnvironment_eq, h1, h2], rfl⟩
  · exact ⟨JOB_FAILED, (job.Executor.Prepare world).2,
      [Effect.logJobStarted, Effect.prepare],
      by simp [Job.beforeTeardown, Proc.emit, PrepareEnvironment_eq, h1], rfl⟩

/-- On a job whose teardown gate is free and whose `Finished` flag is clear,
`Run` sends the finished callback, and `Finished` is set exactly when `Run`
has got through the teardown: if `Run` returns, the teardown-finished callback
has been sent and `Finished` is true; as long as `Run` is held in the archival
wait, the teardown-finished callback has not been sent and `Finished` is still
false. -/
lemma Run_sets_finished_with_teardown (fuel : Nat) (job : Job σ) (world : σ)
    (finishedCallback : Option (σ → σ))
    (hgate : job.TeardownLock.locked = false) (hclear : job.Finished = false) :
    (∃ result : String,
      (Job.Run fuel ⟨job, world, []⟩ finishedCallback).1.trace.filter Effect.isCallback
        = Effect.callback job.Request.Callbacks.Finished (finishedPayload result)
          :: (if (Job.Run fuel ⟨job, world, []⟩ finishedCallback).2 then
                [Effect.callback job.Request.Callbacks.TeardownFinished "\x7b\x7d"]
              else []))
    ∧ (Job.Run fuel ⟨job, world, []⟩ finishedCallback).1.job.Finished
        = (Job.Run fuel ⟨job, world, []⟩ finishedCallback).2 := by
  obtain ⟨result, w, t, hbt, ht⟩ := beforeTeardown_shape job world
  obtain ⟨n, ret, htd⟩ := Teardown_gate_free fuel ⟨job, w, t⟩ result hgate
  obtain ⟨h2, htr, hfin⟩ := Run_of_teardown fuel ⟨job, world, []⟩ finishedCallback
  rw [hbt] at h2 htr hfin
  rw [htd] at h2 htr hfin
  refine ⟨⟨result, ?_⟩, ?_⟩
  · rw [htr, h2]
    simp only [List.filter_append, ht, sleeps_no_callback, List.append_nil, List.nil_append]
    cases ret <;> cases finishedCallback <;> simp [List.filter, Effect.isCallback]
  · rw [hfin, h2]
    simp [hclear]

/-- C14, evaluated on the code.  `Finished` is assigned in one place only, in
`Run`, after its call of `Teardown` has returned, whether or not that call
passed the gate.  On the natural path this works: a fresh job run to its end
has sent the teardown-finished callback and has `Finished` set.  On the
`Stop` path it does not.  First, `Stop` on a fresh push-mode job takes the
gate and completes the teardown (the teardown-finished callback is sent) and
`Finished` is still false.  Second, let `Stop` take the gate of the pull-mode
job `pullJob` and be held in the archival wait, and let `Run` come to its end
meanwhile: its call of `Teardown` loses the gate and returns at once, `Run`
sets `Finished`, and the only callback sent so far is the finished callback:
`Finished` is true before any teardown-finished callback has been sent. -/
theorem C14_finished_misses_stop_path :
    ((Job.Run 0 ⟨freshJob requestPassing, 0, []⟩ none).2 = true
      ∧ Effect.callback "https://hub.example/teardown" "\x7b\x7d"
          ∈ (Job.Run 0 ⟨freshJob requestPassing, 0, []⟩ none).1.trace
      ∧ (Job.Run 0 ⟨freshJob requestPassing, 0, []⟩ none).1.job.Finished = true)
    ∧ (Job.Stop 0 ⟨freshJob requestFailing, 0, []⟩).2 = true
    ∧ Effect.callback "https://hub.example/teardown" "\x7b\x7d"
        ∈ (Job.Stop 0 ⟨freshJob requestFailing, 0, []⟩).1.trace
    ∧ (Job.Stop 0 ⟨freshJob requestFailing, 0, []⟩).1.job.Finished = false
    ∧ (Job.Stop 3 ⟨pullJob, 0, []⟩).2 = false
    ∧ (Job.Run 0 (Job.Stop 3 ⟨pullJob, 0, []⟩).1 none).1.job.Finished = true
    ∧ (Job.Run 0 (Job.Stop 3 ⟨pullJob, 0, []⟩).1 none).1.trace.filter Effect.isCallback
        = [Effect.callback "https://hub.example/finished"
            "\x7b\"result\": \"stopped\"\x7d"] := by
  refine ⟨⟨by decide, by decide, by decide⟩, by decide, by decide, by decide, by decide,
    by decide, by decide⟩

/-- The command loop of a stopped job, entered with exit code 1, returns 1. -/
lemma commandLoop_code_stopped (job : Job σ) (hs : job.Stopped = true)
    (cmds : List Command) (w : σ) (tr : List Effect) :
    (Job.commandLoop cmds 1 ⟨job, w, tr⟩).1 = 1 := by
  cases cmds with
  | nil => rfl
  | cons c cs => simp [Job.commandLoop, hs]

/-- The last exit code of the regular commands is 0 exactly when the list of
all observed exit codes has more than the four boot codes and ends in 0. -/
lemma last_of_codes (boot codes : List Int) (hboot : boot.length = 4) :
    codes.getLast?.getD 1 = 0
      ↔ (4 < (boot ++ codes).length ∧ (boot ++ codes).getLast? = some 0) := by
  rcases List.eq_nil_or_concat codes with hnil | ⟨front, x, hx⟩
  · subst hnil
    simp [hboot]
  · subst hx
    have hlast : (boot ++ (front ++ [x])).getLast? = some x := by
      rw [← List.append_assoc]
      exact List.getLast?_concat _
    simp only [List.concat_eq_append]
    rw [hlast]
    simp [hboot]

/-- The result `Run` passes to `Teardown` is a function of the exit codes of
prepare, start, env-var export, file injection and the regular commands
alone: `passed` exactly when there are more than four of them and the last
one is 0. -/
lemma result_of_codes (job : Job σ) (w : σ) :
    (Job.beforeTeardown ⟨job, w, []⟩).1
      = if 4 < (Job.observedCodes job w).length ∧ (Job.observedCodes job w).getLast? = some 0
        then JOB_PASSED else JOB_FAILED := by
  by_cases h1 : (job.Executor.Prepare w).1 = 0
  · by_cases h2 : (job.Executor.Start (job.Executor.Prepare w).2).1 = 0
    · have hboot : Job.PrepareEnvironment ⟨job, w, [Effect.logJobStarted]⟩
          = (0, ⟨job, (job.Executor.Start (job.Executor.Prepare w).2).2,
              [Effect.logJobStarted, Effect.prepare, Effect.start]⟩) := by
        simp [PrepareEnvironment_eq, h1, h2]
      obtain ⟨w1, w5, t1, k1, ka, kr, -, -, -, -, -, hbt⟩ :=
        beforeTeardown_booted job w _ _ hboot
      rw [hbt]
      by_cases h3 : (job.Executor.ExportEnvVars job.Request.EnvVars
          (job.Executor.Start (job.Executor.Prepare w).2).2).1 = 0
      · by_cases h4 : (job.Executor.InjectFiles job.Request.Files
            (job.Executor.ExportEnvVars job.Request.EnvVars
              (job.Executor.Start (job.Executor.Prepare w).2).2).2).1 = 0
        · by_cases hs : job.Stopped = true
          · simp [Job.RunRegularCommands, Proc.call, h3, h4, Job.RunCommandsUntilFirstFailure,
              commandLoop_code_stopped job hs, Job.observedCodes, h1, h2, hs]
          · have hs0 : job.Stopped = false := by simpa using hs
            simp only [Job.RunRegularCommands, Proc.call, h3, h4, ne_eq, not_true_eq_false,
              if_false, Job.RunCommandsUntilFirstFailure, commandLoop_code job hs0,
              Job.observedCodes, h1, h2, hs0, Bool.false_eq_true]
            generalize Executor.exitCodes job.Executor job.Request.Commands
              (job.Executor.InjectFiles job.Request.Files
                (job.Executor.ExportEnvVars job.Request.EnvVars
                  (job.Executor.Start (job.Executor.Prepare w).2).2).2).2 = codes
            have key := last_of_codes [0, 0, 0, 0] codes rfl
            by_cases hc : codes.getLast?.getD 1 = 0
            · have hr := key.mp hc
              simp only [hc, if_true]
              rw [if_pos hr]
            · have hr := mt key.mpr hc
              simp only [hc, if_false]
              rw [if_neg hr]
        · simp [Job.RunRegularCommands, Proc.call, h3, h4, Job.observedCodes, h1, h2]
      · simp [Job.RunRegularCommands, Proc.call, h3, Job.observedCodes, h1, h2]
    · simp [Job.beforeTeardown, Proc.emit, PrepareEnvironment_eq, h1, h2, Job.observedCodes]
  · simp [Job.beforeTeardown, Proc.emit, PrepareEnvironment_eq, h1, Job.observedCodes]

/-- The part of `Run` before the teardown, in full, when the executor has
booted and the job is not stopped: the result export, the epilogue-always
sequence until its first failure, then the epilogue sequence selected by the
result until its first failure. -/
lemma beforeTeardown_exact (job : Job σ) (w w2 : σ) (tr2 : List Effect)
    (hboot : Job.PrepareEnvironment ⟨job, w, [Effect.logJobStarted]⟩ = (0, ⟨job, w2, tr2⟩))
    (hs : job.Stopped = false) (result : String) (w5 : σ) (tr : List Effect)
    (hregular : Job.RunRegularCommands ⟨job, w2, tr2⟩ = (result, ⟨job, w5, tr⟩)) :
    Job.beforeTeardown ⟨job, w, []⟩
      = (result,
          ⟨job,
            Executor.worldAfter job.Executor
              (if result = JOB_PASSED then job.Request.EpilogueOnPassCommands
                else job.Request.EpilogueOnFailCommands)
              (Executor.worldAfter job.Executor job.Request.EpilogueAlwaysCommands
                (job.Executor.RunCommand ("export SEMAPHORE_JOB_RESULT=" ++ result)
                  false "" w5).2),
            tr ++ [Effect.runCommand ("export SEMAPHORE_JOB_RESULT=" ++ result) false ""]
              ++ (Executor.untilFirstFailure job.Executor job.Request.EpilogueAlwaysCommands
                    (job.Executor.RunCommand ("export SEMAPHORE_JOB_RESULT=" ++ result)
                      false "" w5).2).map Command.effect
              ++ (Executor.untilFirstFailure job.Executor
                    (if result = JOB_PASSED then job.Request.EpilogueOnPassCommands
                      else job.Request.EpilogueOnFailCommands)
                    (Executor.worldAfter job.Executor job.Request.EpilogueAlwaysCommands
                      (job.Executor.RunCommand ("export SEMAPHORE_JOB_RESULT=" ++ result)
                        false "" w5).2)).map Command.effect⟩) := by
  have h1 := commandLoop_exact job hs
    [{ Directive := "export SEMAPHORE_JOB_RESULT=" ++ result, Alias := "" }] 1 w5 tr
  rw [untilFirstFailure_singleton, worldAfter_singleton] at h1
  simp only [List.map_cons, List.map_nil, Command.effect] at h1
  generalize hw6 : (job.Executor.RunCommand ("export SEMAPHORE_JOB_RESULT=" ++ result)
    false "" w5).2 = w6 at h1 ⊢
  have h2 := commandLoop_exact job hs job.Request.EpilogueAlwaysCommands 1 w6
    (tr ++ [Effect.runCommand ("export SEMAPHORE_JOB_RESULT=" ++ result) false ""])
  generalize hw7 : Executor.worldAfter job.Executor job.Request.EpilogueAlwaysCommands w6
    = w7 at h2 ⊢
  generalize hta : (Executor.untilFirstFailure job.Executor job.Request.EpilogueAlwaysCommands
    w6).map Command.effect = ta at h2 ⊢
  have h3 := commandLoop_exact job hs
    (if result = JOB_PASSED then job.Request.EpilogueOnPassCommands
      else job.Request.EpilogueOnFailCommands) 1 w7
    (tr ++ [Effect.runCommand ("export SEMAPHORE_JOB_RESULT=" ++ result) false ""] ++ ta)
  simp only [Job.beforeTeardown, Proc.emit, List.nil_append, hboot, decide_True, if_true,
    hregular, Job.RunCommandsUntilFirstFailure]
  rw [h1]
  by_cases hres : result = JOB_PASSED
  · simp only [hres, if_true] at h2 h3 ⊢
    rw [h2, h3]
  · simp only [hres, if_false] at h2 h3 ⊢
    rw [h2, h3]

/-- When the executor has booted, `PrepareEnvironment` has run prepare and
start and both returned 0. -/
lemma booted_eq (j : Job σ) (w : σ)
    (hbooted : (Job.PrepareEnvironment ⟨j, w, [Effect.logJobStarted]⟩).1 = 0) :
    Job.PrepareEnvironment ⟨j, w, [Effect.logJobStarted]⟩
      = (0, ⟨j, (j.Executor.Start (j.Executor.Prepare w).2).2,
          [Effect.logJobStarted, Effect.prepare, Effect.start]⟩) := by
  rw [PrepareEnvironment_eq] at hbooted ⊢
  by_cases h1 : (j.Executor.Prepare w).1 = 0
  · by_cases h2 : (j.Executor.Start (j.Executor.Prepare w).2).1 = 0
    · simp [h1, h2]
    · simp [h1, h2] at hbooted
  · simp [h1] at hbooted

/-- When the executor has booted and the job is not stopped, the part of
`Run` before the teardown continues the regular phase with the result export,
the epilogue-always sequence until its first failure and the one epilogue
sequence the result selects until its first failure. -/
lemma epilogues_after_boot (j : Job σ) (w : σ)
    (hbooted : (Job.PrepareEnvironment ⟨j, w, [Effect.logJobStarted]⟩).1 = 0)
    (hs : j.Stopped = false) :
    (Job.beforeTeardown ⟨j, w, []⟩).2
      = ⟨j,
          Executor.worldAfter j.Executor
            (if (Job.beforeTeardown ⟨j, w, []⟩).1 = JOB_PASSED
              then j.Request.EpilogueOnPassCommands
              else j.Request.EpilogueOnFailCommands)
            (Executor.worldAfter j.Executor j.Request.EpilogueAlwaysCommands
              (j.Executor.RunCommand
                ("export SEMAPHORE_JOB_RESULT=" ++ (Job.beforeTeardown ⟨j, w, []⟩).1) false ""
                (Job.RunRegularCommands
                  (Job.PrepareEnvironment ⟨j, w, [Effect.logJobStarted]⟩).2).2.world).2),
          (Job.RunRegularCommands
            (Job.PrepareEnvironment ⟨j, w, [Effect.logJobStarted]⟩).2).2.trace
          ++ [Effect.runCommand
                ("export SEMAPHORE_JOB_RESULT=" ++ (Job.beforeTeardown ⟨j, w, []⟩).1) false ""]
          ++ (Executor.untilFirstFailure j.Executor j.Request.EpilogueAlwaysCommands
                (j.Executor.RunCommand
                  ("export SEMAPHORE_JOB_RESULT=" ++ (Job.beforeTeardown ⟨j, w, []⟩).1) false ""
                  (Job.RunRegularCommands
                    (Job.PrepareEnvironment ⟨j, w, [Effect.logJobStarted]⟩).2).2.world).2).map
                Command.effect
          ++ (Executor.untilFirstFailure j.Executor
                (if (Job.beforeTeardown ⟨j, w, []⟩).1 = JOB_PASSED
                  then j.Request.EpilogueOnPassCommands
                  else j.Request.EpilogueOnFailCommands)
                (Executor.worldAfter j.Executor j.Request.EpilogueAlwaysCommands
                  (j.Executor.RunCommand
                    ("export SEMAPHORE_JOB_RESULT=" ++ (Job.beforeTeardown ⟨j, w, []⟩).1)
                    false ""
                    (Job.RunRegularCommands
                      (Job.PrepareEnvironment ⟨j, w, [Effect.logJobStarted]⟩).2).2.world).2)).map
                Command.effect⟩ := by
  have hboot := booted_eq j w hbooted
  obtain ⟨w1, t1, hreg, -⟩ := RunRegularCommands_shape j
    (j.Executor.Start (j.Executor.Prepare w).2).2
    [Effect.logJobStarted, Effect.prepare, Effect.start]
  have hregular : Job.RunRegularCommands
      ⟨j, (j.Executor.Start (j.Executor.Prepare w).2).2,
        [Effect.logJobStarted, Effect.prepare, Effect.start]⟩
      = ((Job.RunRegularCommands
          ⟨j, (j.Executor.Start (j.Executor.Prepare w).2).2,
            [Effect.logJobStarted, Effect.prepare, Effect.start]⟩).1,
        ⟨j, w1, [Effect.logJobStarted, Effect.prepare, Effect.start] ++ t1⟩) :=
    Prod.ext rfl hreg
  have hbt := beforeTeardown_exact j w _ _ hboot hs _ _ _ hregular
  rw [hbt, hboot]
  simp only [hreg]

/-- The command loop of a stopped job runs nothing. -/
lemma commandLoop_stopped (job : Job σ) (hs : job.Stopped = true)
    (cmds : List Command) (last : Int) (w : σ) (tr : List Effect) :
    (Job.commandLoop cmds last ⟨job, w, tr⟩).2 = ⟨job, w, tr⟩ := by
  cases cmds with
  | nil => rfl
  | cons c cs => simp [Job.commandLoop, hs]

/-- When the job is stopped, the part of `Run` before the teardown hands no
command to the executor, booted or not. -/
lemma beforeTeardown_stopped (j : Job σ) (w : σ) (hs : j.Stopped = true)
    (directive : String) (silent : Bool) (aliasName : String) :
    Effect.runCommand directive silent aliasName ∉ (Job.beforeTeardown ⟨j, w, []⟩).2.trace := by
  have hne : ¬ (JOB_FAILED = JOB_PASSED) := by decide
  by_cases h1 : (j.Executor.Prepare w).1 = 0
  · by_cases h2 : (j.Executor.Start (j.Executor.Prepare w).2).1 = 0
    · by_cases h3 : (j.Executor.ExportEnvVars j.Request.EnvVars
          (j.Executor.Start (j.Executor.Prepare w).2).2).1 = 0
      · by_cases h4 : (j.Executor.InjectFiles j.Request.Files
            (j.Executor.ExportEnvVars j.Request.EnvVars
              (j.Executor.Start (j.Executor.Prepare w).2).2).2).1 = 0
        · simp [Job.beforeTeardown, Proc.emit, PrepareEnvironment_eq, h1, h2,
            Job.RunRegularCommands, Proc.call, h3, h4, Job.RunCommandsUntilFirstFailure,
            commandLoop_stopped j hs, hne, commandLoop_code_stopped j hs]
        · simp [Job.beforeTeardown, Proc.emit, PrepareEnvironment_eq, h1, h2,
            Job.RunRegularCommands, Proc.call, h3, h4, Job.RunCommandsUntilFirstFailure,
            commandLoop_stopped j hs, hne]
      · simp [Job.beforeTeardown, Proc.emit, PrepareEnvironment_eq, h1, h2,
          Job.RunRegularCommands, Proc.call, h3, Job.RunCommandsUntilFirstFailure,
          commandLoop_stopped j hs, hne]
    · simp [Job.beforeTeardown, Proc.emit, PrepareEnvironment_eq, h1, h2]
  · simp [Job.beforeTeardown, Proc.emit, PrepareEnvironment_eq, h1]

/-- C17 as amended: take a job and a second executor whose exit codes for
prepare, start, env-var export, file injection and the regular commands, as
`Run` observes them, are the same as those of the job's own executor; nothing
is assumed about the exit codes of the result-export command or of any
epilogue command.  Then `Run` passes the same result to `Teardown` with
either executor, and that result is `passed` or `failed`.  Moreover, for
every job whose executor has booted and that is not stopped, `Run` runs the
regular phase, the result export, then the epilogue-always sequence until its
first failure, then the epilogue-on-pass sequence if the result is `passed`
and the epilogue-on-fail sequence otherwise, until its first failure, and no
command of the other one; for a job that is stopped `Run` hands no command
at all to the executor.  Running a non-empty sequence until its first failure
means running its commands up to and including the one at some position `k`,
where the commands before `k` all exit 0 and the command at `k` exits nonzero
or is the last of the sequence. -/
theorem C17_result_independent_of_epilogues (fuel : Nat) (job : Job σ) (other : Executor σ)
    (w1 w2 : σ) (finishedCallback : Option (σ → σ))
    (hcodes : Job.observedCodes job w1
      = Job.observedCodes { job with Executor := other } w2) :
    (Job.beforeTeardown ⟨job, w1, []⟩).1
        = (Job.beforeTeardown ⟨{ job with Executor := other }, w2, []⟩).1
    ∧ ((Job.beforeTeardown ⟨job, w1, []⟩).1 = JOB_PASSED
        ∨ (Job.beforeTeardown ⟨job, w1, []⟩).1 = JOB_FAILED)
    ∧ (Job.Run fuel ⟨job, w1, []⟩ finishedCallback).1.trace
        = (Job.Teardown fuel (Job.beforeTeardown ⟨job, w1, []⟩).2
            (Job.beforeTeardown ⟨job, w1, []⟩).1).1.trace
          ++ (if (Job.Run fuel ⟨job, w1, []⟩ finishedCallback).2 && finishedCallback.isSome
              then [Effect.finishedCallback] else [])
    ∧ (Job.Run fuel ⟨{ job with Executor := other }, w2, []⟩ finishedCallback).1.trace
        = (Job.Teardown fuel (Job.beforeTeardown ⟨{ job with Executor := other }, w2, []⟩).2
            (Job.beforeTeardown ⟨job, w1, []⟩).1).1.trace
          ++ (if (Job.Run fuel ⟨{ job with Executor := other }, w2, []⟩ finishedCallback).2
                && finishedCallback.isSome
              then [Effect.finishedCallback] else [])
    ∧ (∀ (j : Job σ) (w : σ),
        (Job.PrepareEnvironment ⟨j, w, [Effect.logJobStarted]⟩).1 = 0 → j.Stopped = false →
        (Job.beforeTeardown ⟨j, w, []⟩).2
          = ⟨j,
              Executor.worldAfter j.Executor
                (if (Job.beforeTeardown ⟨j, w, []⟩).1 = JOB_PASSED
                  then j.Request.EpilogueOnPassCommands
                  else j.Request.EpilogueOnFailCommands)
                (Executor.worldAfter j.Executor j.Request.EpilogueAlwaysCommands
                  (j.Executor.RunCommand
                    ("export SEMAPHORE_JOB_RESULT=" ++ (Job.beforeTeardown ⟨j, w, []⟩).1)
                    false ""
                    (Job.RunRegularCommands
                      (Job.PrepareEnvironment ⟨j, w, [Effect.logJobStarted]⟩).2).2.world).2),
              (Job.RunRegularCommands
                (Job.PrepareEnvironment ⟨j, w, [Effect.logJobStarted]⟩).2).2.trace
              ++ [Effect.runCommand
                    ("export SEMAPHORE_JOB_RESULT=" ++ (Job.beforeTeardown ⟨j, w, []⟩).1)
                    false ""]
              ++ (Executor.untilFirstFailure j.Executor j.Request.EpilogueAlwaysCommands
                    (j.Executor.RunCommand
                      ("export SEMAPHORE_JOB_RESULT=" ++ (Job.beforeTeardown ⟨j, w, []⟩).1)
                      false ""
                      (Job.RunRegularCommands
                        (Job.PrepareEnvironment
                          ⟨j, w, [Effect.logJobStarted]⟩).2).2.world).2).map Command.effect
              ++ (Executor.untilFirstFailure j.Executor
                    (if (Job.beforeTeardown ⟨j, w, []⟩).1 = JOB_PASSED
                      then j.Request.EpilogueOnPassCommands
                      else j.Request.EpilogueOnFailCommands)
                    (Executor.worldAfter j.Executor j.Request.EpilogueAlwaysCommands
                      (j.Executor.RunCommand
                        ("export SEMAPHORE_JOB_RESULT=" ++ (Job.beforeTeardown ⟨j, w, []⟩).1)
                        false ""
                        (Job.RunRegularCommands
                          (Job.PrepareEnvironment
                            ⟨j, w, [Effect.logJobStarted]⟩).2).2.world).2)).map
                    Command.effect⟩)
    ∧ (∀ (j : Job σ) (w : σ), j.Stopped = true →
        ∀ (directive : String) (silent : Bool) (aliasName : String),
          Effect.runCommand directive silent aliasName
            ∉ (Job.beforeTeardown ⟨j, w, []⟩).2.trace)
    ∧ ∀ (ex : Executor σ) (cmds : List Command) (w : σ), cmds ≠ [] →
        ∃ (k : Nat) (last : Command) (wk : σ),
          cmds[k]? = some last
          ∧ Executor.passAll ex (cmds.take k) w = some wk
          ∧ ((ex.RunCommand last.Directive false last.Alias wk).1 ≠ 0 ∨ k + 1 = cmds.length)
          ∧ Executor.untilFirstFailure ex cmds w = cmds.take (k + 1) := by
  have hsame : (Job.beforeTeardown ⟨job, w1, []⟩).1
      = (Job.beforeTeardown ⟨{ job with Executor := other }, w2, []⟩).1 := by
    rw [result_of_codes, result_of_codes, hcodes]
  refine ⟨hsame, ?_, (Run_of_teardown fuel ⟨job, w1, []⟩ finishedCallback).2.1, ?_,
    fun j w hb hs => epilogues_after_boot j w hb hs,
    fun j w hs d sl a => beforeTeardown_stopped j w hs d sl a,
    fun ex cmds w hne => untilFirstFailure_spec ex cmds hne w⟩
  · rw [result_of_codes]
    split
    · exact Or.inl rfl
    · exact Or.inr rfl
  · rw [hsame]
    exact (Run_of_teardown fuel ⟨{ job with Executor := other }, w2, []⟩ finishedCallback).2.1

/-- Witness for C17: the job `requestFailing` with the counting executor and
with the tiring executor, which fails the result export and every epilogue
command; the regular commands exit 0 and 1 with both. -/
theorem C17_witness :
    Job.observedCodes (freshJob requestFailing) 0 = [0, 0, 0, 0, 0, 1]
    ∧ ((Job.beforeTeardown ⟨freshJob requestFailing, 0, []⟩).1
        = (Job.beforeTeardown
            ⟨{ freshJob requestFailing with Executor := tiringExecutor }, 0, []⟩).1)
    ∧ (Job.beforeTeardown ⟨freshJob requestFailing, 0, []⟩).1 = "failed"
    ∧ (Job.beforeTeardown ⟨freshJob requestFailing, 0, []⟩).2.trace
        = [Effect.logJobStarted, Effect.prepare, Effect.start,
           Effect.exportEnvVars [⟨"A", "1"⟩], Effect.injectFiles [],
           Effect.runCommand "echo ok" false "first",
           Effect.runCommand "false" false "second",
           Effect.runCommand "export SEMAPHORE_JOB_RESULT=failed" false "",
           Effect.runCommand "echo always" false "always",
           Effect.runCommand "echo fail" false "on fail"]
    ∧ (Job.beforeTeardown
          ⟨{ freshJob requestFailing with Executor := tiringExecutor }, 0, []⟩).2.trace
        = [Effect.logJobStarted, Effect.prepare, Effect.start,
           Effect.exportEnvVars [⟨"A", "1"⟩], Effect.injectFiles [],
           Effect.runCommand "echo ok" false "first",
           Effect.runCommand "false" false "second",
           Effect.runCommand "export SEMAPHORE_JOB_RESULT=failed" false "",
           Effect.runCommand "echo always" false "always",
           Effect.runCommand "echo fail" false "on fail"] :=
  ⟨by decide,
    (C17_result_independent_of_epilogues 0 (freshJob requestFailing) tiringExecutor 0 0 none
      (by decide)).1,
    by decide, by decide, by decide⟩

/-- Counterexample to C17 as stated: the job `requestFailing` with `Stopped`
set.  Its executor boots (`PrepareEnvironment` returns 0), env-var export and
file injection are performed, and then `Run` hands no command to the
executor: neither the one epilogue-always command nor the one
epilogue-on-fail command of the request is run, though the result is
`failed`. -/
theorem C17_counterexample_stopped_job :
    (Job.PrepareEnvironment
        ⟨{ freshJob requestFailing with Stopped := true }, 0, [Effect.logJobStarted]⟩).1 = 0
    ∧ (Job.beforeTeardown ⟨{ freshJob requestFailing with Stopped := true }, 0, []⟩).1
        = "failed"
    ∧ requestFailing.EpilogueAlwaysCommands = [⟨"echo always", "always"⟩]
    ∧ requestFailing.EpilogueOnFailCommands = [⟨"echo fail", "on fail"⟩]
    ∧ (Job.Run 0 ⟨{ freshJob requestFailing with Stopped := true }, 0, []⟩ none).2 = true
    ∧ (Job.Run 0 ⟨{ freshJob requestFailing with Stopped := true }, 0, []⟩ none).1.trace
        = [Effect.logJobStarted, Effect.prepare, Effect.start,
           Effect.exportEnvVars [⟨"A", "1"⟩], Effect.injectFiles [],
           Effect.callback "https://hub.example/finished" "\x7b\"result\": \"failed\"\x7d",
           Effect.logJobFinished "failed",
           Effect.loggerClose,
           Effect.callback "https://hub.example/teardown" "\x7b\x7d"] := by
  refine ⟨by decide, by decide, by decide, by decide, by decide, by decide⟩

end Agent.Jobs

/-! ## Theorems: handlers of the control server -/

namespace Agent.Control

open Jobs

variable {σ : Type}

/-- C12, evaluated on the code: a server in the state `waiting for job`
receives a submit-job request whose body the parser rejects.  The handler
writes the message body without writing a status line first, so the response
goes out with status 200, not with a 4xx status.  No job is created and no
goroutine is started; the state is left at `received-job`. -/
theorem C12_malformed_body_answered_with_200 :
    idleServer.State = "waiting for job"
    ∧ parseExample "not a job" = Except.error "invalid job request"
    ∧ (Server.Run parseExample depsExample.CreateLogger depsExample.CreateExecutor idleServer
        ResponseWriter.fresh malformedRequest).w.statusCode = 200
    ∧ (Server.Run parseExample depsExample.CreateLogger depsExample.CreateExecutor idleServer
        ResponseWriter.fresh malformedRequest).w.body
        = "\x7b\"message\": \"invalid job request\"\x7d"
    ∧ (Server.Run parseExample depsExample.CreateLogger depsExample.CreateExecutor idleServer
        ResponseWriter.fresh malformedRequest).server.ActiveJob.isNone = true
    ∧ (Server.Run parseExample depsExample.CreateLogger depsExample.CreateExecutor idleServer
        ResponseWriter.fresh malformedRequest).spawned = []
    ∧ (Server.Run parseExample depsExample.CreateLogger depsExample.CreateExecutor idleServer
        ResponseWriter.fresh malformedRequest).server.State = "received-job" := by
  refine ⟨by decide, rfl, by decide, by decide, rfl, by decide, by decide⟩

/-- C15, evaluated on the code: for every server and request the status
handler leaves the server as it is and writes the marshalled map of `state`
and `version`, but it writes the status line 400 first, so the answer always
carries a failure status. -/
theorem C15_status_answers_with_400 (Marshal : List (String × String) → String)
    (Sprintf : String → String) (s : Server σ) (r : HttpRequest) :
    (Server.Status Marshal Sprintf s ResponseWriter.fresh r).w.statusCode = 400
    ∧ (Server.Status Marshal Sprintf s ResponseWriter.fresh r).w.body
        = Sprintf (Marshal [("state", s.State), ("version", s.Version)])
    ∧ (Server.Status Marshal Sprintf s ResponseWriter.fresh r).server = s
    ∧ (Server.Status depsExample.Marshal depsExample.Sprintf busyServer ResponseWriter.fresh
        plainRequest).w
        = { header := [], status := some 400,
            body := "\x7b\"state\":\"job-started\",\"version\":\"v1.0.0\"\x7d" } := by
  refine ⟨rfl, ?_, rfl, by decide⟩
  simp [Server.Status, ResponseWriter.Write, ResponseWriter.WriteHeader, ResponseWriter.fresh]

/-- Once the state is not `waiting for job`, no handler changes it. -/
lemma handle_keeps_state (d : Deps σ) (s : Server σ) (hleft : s.State ≠ "waiting for job")
    (c : Incoming) : (Server.handle d s c).server.State = s.State := by
  cases c with
  | run r => simp [Server.handle, Server.Run, hleft]
  | stop r =>
    simp only [Server.handle, Server.Stop]
    split <;> rfl
  | status r => rfl
  | jobLogs r files =>
    simp only [Server.handle, Server.JobLogs]
    split
    · rfl
    · split
      · split <;> rfl
      · rfl
  | agentLogs r files =>
    simp only [Server.handle, Server.AgentLogs]
    split <;> rfl

/-- Once the state is not `waiting for job`, no sequence of requests changes
it. -/
lemma serve_keeps_state (d : Deps σ) (cs : List Incoming) :
    ∀ s : Server σ, s.State ≠ "waiting for job" → (Server.serve d s cs).State = s.State := by
  induction cs with
  | nil => intro s _; rfl
  | cons c cs ih =>
    intro s hleft
    have hc := handle_keeps_state d s hleft c
    simp only [Server.serve]
    split
    · exact hc
    · rw [ih _ (by rw [hc]; exact hleft), hc]

/-- C19: a submit-job request that passes the admission check moves the state
away from `waiting for job`, whatever becomes of it (body unreadable, body
rejected by the parser, job construction failed, job started).  And on a
server reached from `NewServer` by any sequence of handler calls, once the
state is not `waiting for job`, every further sequence of handler calls
leaves the state as it is, so it never becomes `waiting for job` again and
every later submit-job request is answered 422. -/
theorem C19_admission_is_one_way (d : Deps σ) (host : String) (port : Int)
    (version : String) (jwtSecret : List Nat) (before later : List Incoming)
    (hleft : (Server.serve d (NewServer host port version jwtSecret) before).State
      ≠ "waiting for job")
    (r : HttpRequest) :
    (Server.serve d (Server.serve d (NewServer host port version jwtSecret) before) later).State
        = (Server.serve d (NewServer host port version jwtSecret) before).State
    ∧ (Server.serve d (Server.serve d (NewServer host port version jwtSecret) before)
        later).State ≠ "waiting for job"
    ∧ (Server.handle d
        (Server.serve d (Server.serve d (NewServer host port version jwtSecret) before) later)
        (Incoming.run r)).w.statusCode = 422
    ∧ ∀ (s0 : Server σ) (r0 : HttpRequest), s0.State = "waiting for job" →
        (Server.handle d s0 (Incoming.run r0)).server.State = "received-job"
        ∨ (Server.handle d s0 (Incoming.run r0)).server.State = "job-started" := by
  have hkeep := serve_keeps_state d later _ hleft
  have hnot : (Server.serve d (Server.serve d (NewServer host port version jwtSecret) before)
      later).State ≠ "waiting for job" := by
    rw [hkeep]
    exact hleft
  refine ⟨hkeep, hnot, ?_, ?_⟩
  · simp only [Server.handle, Server.Run, hnot, ne_eq, not_false_eq_true, if_true]
    rfl
  · intro s0 r0 h0
    simp only [Server.handle, Server.Run, h0, ne_eq, not_true_eq_false, if_false]
    split
    · exact Or.inl rfl
    · split
      · exact Or.inl rfl
      · split
        · exact Or.inl rfl
        · exact Or.inr rfl

/-- Witness for C19: the first submission has a body the parser rejects, which
leaves the state at `received-job`; status, archivator, a well-formed
submission and a stop request follow; a further well-formed submission is
answered 422. -/
theorem C19_witness :
    (Server.serve depsExample (NewServer "0.0.0.0" 8000 "v1.0.0" [1, 2, 3])
        [Incoming.run malformedRequest]).State = "received-job"
    ∧ ((Server.serve depsExample
        (Server.serve depsExample (NewServer "0.0.0.0" 8000 "v1.0.0" [1, 2, 3])
          [Incoming.run malformedRequest])
        [Incoming.status plainRequest, Incoming.jobLogs archivatorRequest filesExample,
          Incoming.run submitRequest, Incoming.stop plainRequest]).State
        = (Server.serve depsExample (NewServer "0.0.0.0" 8000 "v1.0.0" [1, 2, 3])
            [Incoming.run malformedRequest]).State
      ∧ (Server.serve depsExample
        (Server.serve depsExample (NewServer "0.0.0.0" 8000 "v1.0.0" [1, 2, 3])
          [Incoming.run malformedRequest])
        [Incoming.status plainRequest, Incoming.jobLogs archivatorRequest filesExample,
          Incoming.run submitRequest, Incoming.stop plainRequest]).State ≠ "waiting for job"
      ∧ (Server.handle depsExample
        (Server.serve depsExample
          (Server.serve depsExample (NewServer "0.0.0.0" 8000 "v1.0.0" [1, 2, 3])
            [Incoming.run malformedRequest])
          [Incoming.status plainRequest, Incoming.jobLogs archivatorRequest filesExample,
            Incoming.run submitRequest, Incoming.stop plainRequest])
        (Incoming.run submitRequest)).w.statusCode = 422
      ∧ ∀ (s0 : Server Nat) (r0 : HttpRequest), s0.State = "waiting for job" →
          (Server.handle depsExample s0 (Incoming.run r0)).server.State = "received-job"
          ∨ (Server.handle depsExample s0 (Incoming.run r0)).server.State = "job-started") :=
  ⟨by decide,
    C19_admission_is_one_way depsExample "0.0.0.0" 8000 "v1.0.0" [1, 2, 3]
      [Incoming.run malformedRequest]
      [Incoming.status plainRequest, Incoming.jobLogs archivatorRequest filesExample,
        Incoming.run submitRequest, Incoming.stop plainRequest]
      (by decide) submitRequest⟩

/-- C20, evaluated on the code: on the server `NewServer` returns, where no
job has ever been accepted, `ActiveJob` is nil; a stop-job request starts
`ActiveJob.Stop` on it, which dereferences nil in its goroutine, and a
job-logs request of the archivator with the log file present dereferences it
in the handler.  The same happens after a submission whose body the parser
rejected, which leaves `ActiveJob` nil as well. -/
theorem C20_absent_job_is_dereferenced :
    idleServer.ActiveJob.isNone = true
    ∧ (Server.Stop idleServer ResponseWriter.fresh plainRequest).fault
        = some Fault.nilActiveJobInGoroutine
    ∧ (Server.JobLogs depsExample.Atoi filesExample idleServer ResponseWriter.fresh
        archivatorRequest).fault = some Fault.nilActiveJobInHandler
    ∧ (Server.serve depsExample idleServer [Incoming.run malformedRequest]).ActiveJob.isNone
        = true
    ∧ (Server.Stop (Server.serve depsExample idleServer [Incoming.run malformedRequest])
        ResponseWriter.fresh plainRequest).fault = some Fault.nilActiveJobInGoroutine
    ∧ (Server.JobLogs depsExample.Atoi filesExample
        (Server.serve depsExample idleServer [Incoming.run malformedRequest])
        ResponseWriter.fresh archivatorRequest).fault = some Fault.nilActiveJobInHandler := by
  refine ⟨rfl, rfl, by decide, rfl, rfl, by decide⟩

end Agent.Control
